import Mathlib

/-!
Verification development for the `nexus` multiplayer session framework.

The definitions below are a shallow embedding of the Python source:

* `src/nexus/network/serializable.py` (wire serialization),
* `src/nexus/network/command.py`, `src/nexus/network/update.py`,
  `src/nexus/network/player.py`, `src/nexus/network/game.py` (data model),
* `src/nexus/network/server.py` (`NexusServer` handlers),
* `src/examples/tic-tac-toe/tic_tac_toe.py` (`TicTacToeState`).

Python dictionaries are modelled as insertion-ordered association lists
(`dinsert` replaces in place or appends, matching CPython assignment).
Python exceptions are modelled as a boolean flag on each handler's result;
mutations performed before the raising statement persist, mutations after
it do not, matching the in-place mutation order of the source.  Object
identity of `NexusPlayer` records (the source mutates shared objects) is
modelled as record equality; along all traces considered here the two
coincide because every distinct object also differs as a record.
-/

namespace Nexus

/-- Wire values: the JSON-like values stored in `Command.data` / `Update.data`.
`vEnum s` is a member of a `str`-valued Python `Enum` whose `.value` is `s`
(every enum in this repository subclasses `str`). -/
inductive Value where
  | vNone : Value
  | vBool : Bool → Value
  | vInt : Int → Value
  | vStr : String → Value
  | vEnum : String → Value
  | vList : List Value → Value
  | vDict : List (String × Value) → Value

mutual

/-- The `_serialize` helper of `Serializable.to_dict`: enum members are
replaced by their `.value`, lists and dicts are serialized recursively,
all other values pass through unchanged. -/
def Value.serialize : Value → Value
  | .vEnum s => .vStr s
  | .vList l => .vList (Value.serializeList l)
  | .vDict l => .vDict (Value.serializeDict l)
  | v => v

/-- `_serialize` mapped over a list of values. -/
def Value.serializeList : List Value → List Value
  | [] => []
  | v :: vs => v.serialize :: Value.serializeList vs

/-- `_serialize` mapped over the values of an association list. -/
def Value.serializeDict : List (String × Value) → List (String × Value)
  | [] => []
  | (k, v) :: rest => (k, v.serialize) :: Value.serializeDict rest

end

mutual

/-- Python `==` on wire values.  A `str`-subclassing enum member compares
equal to its `.value` string, so `vEnum s == vStr s`; dictionaries produced
by the serializer keep their key order, so pointwise comparison of the
association lists is used (it implies Python's order-insensitive dict
equality). -/
def Value.pyEq : Value → Value → Bool
  | .vNone, .vNone => true
  | .vBool a, .vBool b => a == b
  | .vInt a, .vInt b => a == b
  | .vStr a, .vStr b => a == b
  | .vEnum a, .vEnum b => a == b
  | .vEnum a, .vStr b => a == b
  | .vStr a, .vEnum b => a == b
  | .vList a, .vList b => Value.pyEqList a b
  | .vDict a, .vDict b => Value.pyEqDict a b
  | _, _ => false

/-- Pointwise Python equality of two lists of wire values. -/
def Value.pyEqList : List Value → List Value → Bool
  | [], [] => true
  | a :: as_, b :: bs => Value.pyEq a b && Value.pyEqList as_ bs
  | _, _ => false

/-- Pointwise Python equality of two association lists of wire values. -/
def Value.pyEqDict : List (String × Value) → List (String × Value) → Bool
  | [], [] => true
  | a :: as_, b :: bs => a.1 == b.1 && Value.pyEq a.2 b.2 && Value.pyEqDict as_ bs
  | _, _ => false

end

mutual

/-- A value is Python-equal to its serialized form: serialization only
replaces `str`-enum members by their underlying strings. -/
theorem Value.pyEq_serialize : (v : Value) → Value.pyEq v v.serialize = true
  | .vNone => rfl
  | .vBool _ => by simp [Value.serialize, Value.pyEq]
  | .vInt _ => by simp [Value.serialize, Value.pyEq]
  | .vStr _ => by simp [Value.serialize, Value.pyEq]
  | .vEnum _ => by simp [Value.serialize, Value.pyEq]
  | .vList l => by
      simp only [Value.serialize, Value.pyEq]
      exact Value.pyEqList_serialize l
  | .vDict l => by
      simp only [Value.serialize, Value.pyEq]
      exact Value.pyEqDict_serialize l

/-- A list of values is pointwise Python-equal to its serialized form. -/
theorem Value.pyEqList_serialize :
    (l : List Value) → Value.pyEqList l (Value.serializeList l) = true
  | [] => rfl
  | v :: vs => by
      simp only [Value.serializeList, Value.pyEqList, Value.pyEq_serialize v,
        Value.pyEqList_serialize vs, Bool.and_self]

/-- An association list of values is pointwise Python-equal to its
serialized form. -/
theorem Value.pyEqDict_serialize :
    (l : List (String × Value)) → Value.pyEqDict l (Value.serializeDict l) = true
  | [] => rfl
  | (k, v) :: rest => by
      simp only [Value.serializeDict, Value.pyEqDict, Value.pyEq_serialize v,
        Value.pyEqDict_serialize rest, beq_self_eq_true, Bool.and_self,
        Bool.true_and]

end

/-- Lookup in a Python dict modelled as an association list (first match). -/
def dget {α : Type} (l : List (String × α)) (k : String) : Option α :=
  match l with
  | [] => none
  | (k', v) :: rest => if k' = k then some v else dget rest k

/-- `CommandType` from `src/nexus/network/command.py` (a `str` enum). -/
inductive CommandType where
  | make_move : CommandType
  | surrender : CommandType
  | create_game : CommandType
  | join_game : CommandType
  | find_game : CommandType
deriving DecidableEq, Repr

/-- The `.value` string of a `CommandType` member. -/
def CommandType.value : CommandType → String
  | .make_move => "make_move"
  | .surrender => "surrender"
  | .create_game => "create_game"
  | .join_game => "join_game"
  | .find_game => "find_game"

/-- Value-string to `CommandType` member. -/
def CommandType.ofString (s : String) : Option CommandType :=
  if s = "make_move" then some .make_move
  else if s = "surrender" then some .surrender
  else if s = "create_game" then some .create_game
  else if s = "join_game" then some .join_game
  else if s = "find_game" then some .find_game
  else none

/-- The enum constructor `CommandType(x)`: succeeds on a member's value
string (or on the member itself, which as a `str` subclass equals its
value), raises `ValueError` otherwise. -/
def CommandType.fromValue : Value → Option CommandType
  | .vStr s => CommandType.ofString s
  | .vEnum s => CommandType.ofString s
  | _ => none

/-- `UpdateType` from `src/nexus/network/update.py` (a `str` enum). -/
inductive UpdateType where
  | game_created : UpdateType
  | game_over : UpdateType
  | game_started : UpdateType
  | game_state_update : UpdateType
  | error : UpdateType
deriving DecidableEq, Repr

/-- The `.value` string of an `UpdateType` member. -/
def UpdateType.value : UpdateType → String
  | .game_created => "game_created"
  | .game_over => "game_over"
  | .game_started => "game_started"
  | .game_state_update => "game_state_update"
  | .error => "error"

/-- Value-string to `UpdateType` member. -/
def UpdateType.ofString (s : String) : Option UpdateType :=
  if s = "game_created" then some .game_created
  else if s = "game_over" then some .game_over
  else if s = "game_started" then some .game_started
  else if s = "game_state_update" then some .game_state_update
  else if s = "error" then some .error
  else none

/-- The enum constructor `UpdateType(x)`. -/
def UpdateType.fromValue : Value → Option UpdateType
  | .vStr s => UpdateType.ofString s
  | .vEnum s => UpdateType.ofString s
  | _ => none

/-- `Command` from `src/nexus/network/command.py`. -/
structure Command where
  command_type : CommandType
  data : List (String × Value)

/-- `Update` from `src/nexus/network/update.py`. -/
structure Update where
  update_type : UpdateType
  data : List (String × Value)

/-- `Serializable.to_dict` specialized at `Command`: both fields are
serializable, the enum field becomes its value string and the data dict is
serialized recursively. -/
def Command.to_dict (c : Command) : List (String × Value) :=
  [("command_type", Value.vStr c.command_type.value),
   ("data", Value.vDict (Value.serializeDict c.data))]

/-- `Serializable.to_dict` specialized at `Update`. -/
def Update.to_dict (u : Update) : List (String × Value) :=
  [("update_type", Value.vStr u.update_type.value),
   ("data", Value.vDict (Value.serializeDict u.data))]

/-- `Serializable.from_dict` specialized at `Command`: the `command_type`
entry is converted through the enum constructor (a `ValueError` or a
missing required argument yields `none`); the `data` entry is passed
through unchanged because its declared type `Dict[str, Any]` is neither an
enum nor a `Serializable` (a non-dict `data` value is outside the typed
model and also yields `none`). -/
def Command.from_dict (d : List (String × Value)) : Option Command :=
  match dget d "command_type" with
  | none => none
  | some ctv =>
    match CommandType.fromValue ctv with
    | none => none
    | some ct =>
      match dget d "data" with
      | some (Value.vDict dd) => some ⟨ct, dd⟩
      | some _ => none
      | none => some ⟨ct, []⟩

/-- `Serializable.from_dict` specialized at `Update`. -/
def Update.from_dict (d : List (String × Value)) : Option Update :=
  match dget d "update_type" with
  | none => none
  | some utv =>
    match UpdateType.fromValue utv with
    | none => none
    | some ut =>
      match dget d "data" with
      | some (Value.vDict dd) => some ⟨ut, dd⟩
      | some _ => none
      | none => some ⟨ut, []⟩

/-- The enum constructor inverts `.value` for every `CommandType` member. -/
theorem commandType_fromValue_value (ct : CommandType) :
    CommandType.fromValue (Value.vStr ct.value) = some ct := by
  cases ct <;> simp [CommandType.fromValue, CommandType.ofString, CommandType.value]

/-- The enum constructor inverts `.value` for every `UpdateType` member. -/
theorem updateType_fromValue_value (ut : UpdateType) :
    UpdateType.fromValue (Value.vStr ut.value) = some ut := by
  cases ut <;> simp [UpdateType.fromValue, UpdateType.ofString, UpdateType.value]

/-- C7: deserializing the serialized form of any `Command` or `Update`
succeeds and yields a record whose enum-typed `command_type` /
`update_type` field is the same enum member and whose `data` mapping is
Python-equal to the original (each `str`-enum member inside `data` comes
back as its value string, which Python compares equal to the member). -/
theorem command_update_round_trip :
    (∀ c : Command, ∃ c' : Command,
      Command.from_dict (Command.to_dict c) = some c' ∧
      c'.command_type = c.command_type ∧
      Value.pyEqDict c.data c'.data = true) ∧
    (∀ u : Update, ∃ u' : Update,
      Update.from_dict (Update.to_dict u) = some u' ∧
      u'.update_type = u.update_type ∧
      Value.pyEqDict u.data u'.data = true) := by
  constructor
  · intro c
    refine ⟨⟨c.command_type, Value.serializeDict c.data⟩, ?_, rfl, ?_⟩
    · simp [Command.from_dict, Command.to_dict, dget,
        commandType_fromValue_value]
    · exact Value.pyEqDict_serialize c.data
  · intro u
    refine ⟨⟨u.update_type, Value.serializeDict u.data⟩, ?_, rfl, ?_⟩
    · simp [Update.from_dict, Update.to_dict, dget,
        updateType_fromValue_value]
    · exact Value.pyEqDict_serialize u.data

/-- `GamePhase` from `src/nexus/game/gamestate.py` (a `str` enum). -/
inductive GamePhase where
  | lobby : GamePhase
  | in_game : GamePhase
  | end_game : GamePhase
deriving DecidableEq, Repr

/-- The `.value` string of a `GamePhase` member. -/
def GamePhase.value : GamePhase → String
  | .lobby => "lobby"
  | .in_game => "in_game"
  | .end_game => "end_game"

/-- `NexusPlayer` from `src/nexus/network/player.py`.  The `data`,
`connected` and `last_seen` fields are never read by any handler and are
omitted; record equality stands in for Python object identity (see the
file header). -/
structure NexusPlayer where
  id : String
  name : String
  game_id : Option String
deriving DecidableEq, Repr

/-- The `row` / `col` / `symbol` entries of a `make_move` command's `data`
dict (`none` models an absent key). -/
structure MoveData where
  row : Option Int
  col : Option Int
  symbol : Option String
deriving DecidableEq, Repr

/-- The wire dict a `MoveData` stands for, used when the router broadcasts
`Update(GAME_STATE_UPDATE, command.data)`. -/
def MoveData.toDict (d : MoveData) : List (String × Value) :=
  (match d.row with
   | some r => [("row", Value.vInt r)]
   | none => []) ++
  (match d.col with
   | some c => [("col", Value.vInt c)]
   | none => []) ++
  (match d.symbol with
   | some s => [("symbol", Value.vStr s)]
   | none => [])

/-- Python list indexing `l[i]`: non-negative indices in range, negative
indices wrap once, anything else raises `IndexError` (`none`). -/
def pyIdx {α : Type} (l : List α) (i : Int) : Option α :=
  if 0 ≤ i ∧ i < l.length then l[i.toNat]?
  else if -(l.length : Int) ≤ i ∧ i < 0 then l[(i + l.length).toNat]?
  else none

/-- Python list assignment `l[i] = v` with the same index semantics. -/
def pySet {α : Type} (l : List α) (i : Int) (v : α) : Option (List α) :=
  if 0 ≤ i ∧ i < l.length then some (l.set i.toNat v)
  else if -(l.length : Int) ≤ i ∧ i < 0 then some (l.set (i + l.length).toNat v)
  else none

/-- `self.board[row][col]` of `TicTacToeState`. -/
def boardGet (b : List (List String)) (row col : Int) : Option String :=
  (pyIdx b row).bind fun r => pyIdx r col

/-- `self.board[row][col] = symbol` of `TicTacToeState`. -/
def boardSet (b : List (List String)) (row col : Int) (v : String) :
    Option (List (List String)) :=
  (pyIdx b row).bind fun r =>
    (pySet r col v).bind fun r' => pySet b row r'

/-- `TicTacToeState` from `src/examples/tic-tac-toe/tic_tac_toe.py`
(including the base `GameState` fields). -/
structure TicTacToeState where
  players : List NexusPlayer
  game_over : Bool
  winner : Option String
  phase : GamePhase
  board : List (List String)
  current_player : Option String
  my_symbol : Option String
  is_your_turn : Bool
deriving DecidableEq, Repr

/-- `TicTacToeState(players)`: the dataclass defaults — a 3×3 empty board,
`current_player='X'`, base-class defaults for the rest. -/
def TicTacToeState.init (players : List NexusPlayer) : TicTacToeState :=
  { players := players
    game_over := false
    winner := none
    phase := .in_game
    board := [["", "", ""], ["", "", ""], ["", "", ""]]
    current_player := some "X"
    my_symbol := none
    is_your_turn := false }

/-- `TicTacToeState.check_winner`: rows and columns interleaved, then the
two diagonals; a line counts only if its three cells are equal and
non-empty.  Out-of-shape boards read as `""` here; every state built by
`init` / `applyMove` has a 3×3 board, where this agrees with the source's
direct indexing. -/
def TicTacToeState.check_winner (b : List (List String)) : Option String :=
  let cell := fun (r c : Nat) => ((b[r]?).bind (fun row => row[c]?)).getD ""
  let line := fun (x y z : String) => if x = y ∧ y = z ∧ z ≠ "" then some x else none
  (line (cell 0 0) (cell 0 1) (cell 0 2)).orElse fun _ =>
  (line (cell 0 0) (cell 1 0) (cell 2 0)).orElse fun _ =>
  (line (cell 1 0) (cell 1 1) (cell 1 2)).orElse fun _ =>
  (line (cell 0 1) (cell 1 1) (cell 2 1)).orElse fun _ =>
  (line (cell 2 0) (cell 2 1) (cell 2 2)).orElse fun _ =>
  (line (cell 0 2) (cell 1 2) (cell 2 2)).orElse fun _ =>
  (line (cell 0 0) (cell 1 1) (cell 2 2)).orElse fun _ =>
  (line (cell 0 2) (cell 1 1) (cell 2 0))

/-- Python truthiness of `check_winner()`'s result (`None` and `''` are
falsy). -/
def TicTacToeState.winnerTruthy (b : List (List String)) : Bool :=
  match TicTacToeState.check_winner b with
  | some w => w ≠ ""
  | none => false

/-- `TicTacToeState.is_draw`: every cell non-empty. -/
def TicTacToeState.is_draw (b : List (List String)) : Bool :=
  b.all fun row => row.all fun c => c != ""

/-- The player symbol derived from a seat index (`"X" if player_index == 0
else "O"`). -/
def symbolFor (player_index : Nat) : String :=
  if player_index = 0 then "X" else "O"

/-- `TicTacToeState.is_valid`: turn check, then `row`/`col` extraction
(`KeyError` caught as an invalid-command result), bounds check, occupancy
check. -/
def TicTacToeState.is_valid (st : TicTacToeState) (d : MoveData)
    (player_index : Nat) : Bool × String :=
  let player_symbol := symbolFor player_index
  if st.current_player ≠ some player_symbol then
    (false, "Not your turn - it's " ++
      (st.current_player.getD "None") ++ "'s turn")
  else
    match d.row, d.col with
    | some row, some col =>
        if ¬(0 ≤ row ∧ row < 3 ∧ 0 ≤ col ∧ col < 3) then
          (false, "Invalid move: position (" ++ toString row ++ ", " ++
            toString col ++ ") is out of bounds")
        else
          match boardGet st.board row col with
          | some cell =>
              if cell ≠ "" then
                (false, "Invalid move: position (" ++ toString row ++ ", " ++
                  toString col ++ ") is already occupied")
              else (true, "")
          | none => (false, "IndexError")
    | _, _ => (false, "Invalid command: missing row or col")

/-- The `GAME_STATE_UPDATE` branch of `TicTacToeState.apply`, the only
branch the server exercises (the `GAME_STARTED` branch initializes a
client-side mirror and is not part of the server model).  `none` models a
raised exception (`KeyError` on a missing `symbol`, `IndexError` on an
out-of-range index), both raised before any mutation; an update without
`row` and `col` keys is silently ignored. -/
def TicTacToeState.applyMove (st : TicTacToeState) (d : MoveData) :
    Option TicTacToeState :=
  match d.row, d.col with
  | some row, some col =>
      match d.symbol with
      | none => none
      | some symbol =>
          match boardSet st.board row col symbol with
          | none => none
          | some board1 =>
              let cp := some (if symbol = "X" then "O" else "X")
              let st1 := { st with
                board := board1
                current_player := cp
                is_your_turn := decide (cp = st.my_symbol) }
              if TicTacToeState.winnerTruthy board1 then
                some { st1 with
                  winner := some symbol
                  game_over := true
                  phase := .end_game
                  current_player := none
                  is_your_turn := false }
              else if TicTacToeState.is_draw board1 then
                some { st1 with
                  game_over := true
                  winner := none
                  phase := .end_game
                  current_player := none
                  is_your_turn := false }
              else some st1
  | _, _ => some st

/-- `Option String` as a wire value. -/
def optStrV : Option String → Value
  | some s => .vStr s
  | none => .vNone

/-- A board as a wire value. -/
def boardV (b : List (List String)) : Value :=
  .vList (b.map fun row => .vList (row.map Value.vStr))

/-- `TicTacToeState.get_player_perspective`: the base-class dict
(`game_over`, `winner`, `phase`) updated with the board, current player,
winner (same value again), the seat-derived symbol and the turn flag;
`dict.update` overwrites `winner` in place, giving this key order. -/
def TicTacToeState.get_player_perspective (st : TicTacToeState)
    (player_index : Nat) : List (String × Value) :=
  let player_symbol := symbolFor player_index
  [("game_over", Value.vBool st.game_over),
   ("winner", optStrV st.winner),
   ("phase", Value.vEnum st.phase.value),
   ("board", boardV st.board),
   ("current_player", optStrV st.current_player),
   ("my_symbol", Value.vStr player_symbol),
   ("is_your_turn", Value.vBool (st.current_player = some player_symbol))]

/-- On a non-negative index, Python indexing is plain list indexing. -/
theorem pyIdx_nonneg {α : Type} {l : List α} {i : Int} (h0 : 0 ≤ i) :
    pyIdx l i = l[i.toNat]? := by
  unfold pyIdx
  split
  · rfl
  · next hc =>
      split
      · next hc2 => omega
      · symm
        apply List.getElem?_eq_none
        omega

/-- On a non-negative in-range index, Python assignment is plain `set`. -/
theorem pySet_nonneg {α : Type} {l : List α} {i : Int} (v : α) (h0 : 0 ≤ i)
    (h : i < l.length) : pySet l i v = some (l.set i.toNat v) := by
  unfold pySet
  split
  · rfl
  · omega

/-- A successful cell read means a successful cell write, and reading the
written cell back yields the written symbol. -/
theorem boardSet_of_boardGet {b : List (List String)} {r c : Int}
    {cell : String} (v : String) (hr : 0 ≤ r) (hc : 0 ≤ c)
    (h : boardGet b r c = some cell) :
    ∃ b', boardSet b r c v = some b' ∧ boardGet b' r c = some v := by
  unfold boardGet at h
  rw [pyIdx_nonneg hr] at h
  rcases hrow : b[r.toNat]? with _ | rowL
  · rw [hrow] at h; exact absurd h (by simp)
  rw [hrow] at h
  simp only [Option.some_bind] at h
  rw [pyIdx_nonneg hc] at h
  have hrlen : r.toNat < b.length := by
    by_contra hn
    rw [List.getElem?_eq_none (by omega)] at hrow
    exact Option.noConfusion hrow
  have hclen : c.toNat < rowL.length := by
    by_contra hn
    rw [List.getElem?_eq_none (by omega)] at h
    exact Option.noConfusion h
  refine ⟨b.set r.toNat (rowL.set c.toNat v), ?_, ?_⟩
  · unfold boardSet
    rw [pyIdx_nonneg hr, hrow]
    simp only [Option.some_bind]
    rw [pySet_nonneg v hc (by omega)]
    simp only [Option.some_bind]
    rw [pySet_nonneg _ hr (by omega)]
  · unfold boardGet
    rw [pyIdx_nonneg hr, List.getElem?_set_eq_of_lt _ hrlen]
    simp only [Option.some_bind]
    rw [pyIdx_nonneg hc, List.getElem?_set_eq_of_lt _ hclen]

/-- A move at in-bounds coordinates whose target cell reads back as a
non-empty string is rejected by `is_valid` for every seat (either the turn
check or the occupancy check fails). -/
theorem is_valid_false_of_occupied (st : TicTacToeState) (r c : Int)
    (ds : Option String) (i : Nat)
    (hb : 0 ≤ r ∧ r < 3 ∧ 0 ≤ c ∧ c < 3)
    (cell : String) (hc1 : boardGet st.board r c = some cell)
    (hc2 : cell ≠ "") :
    (st.is_valid ⟨some r, some c, ds⟩ i).1 = false := by
  simp only [TicTacToeState.is_valid]
  split
  · simp
  · rw [hc1]
    simp [hc2]

/-- Amended C8: an accepted `make_move` whose `symbol` entry is a
non-empty string is applied successfully and is rejected by `is_valid` on
replay (the cell is now occupied, or it is no longer that player's turn).
The amendment is needed because `is_valid` never inspects `symbol`: an
accepted move carrying `symbol=""` writes the empty string, hands the turn
back to `"X"`, and is accepted again (see the counterexample). -/
theorem accepted_move_rejected_on_replay (st : TicTacToeState) (d : MoveData)
    (i : Nat) (sym : String) (hv : (st.is_valid d i).1 = true)
    (hs : d.symbol = some sym) (hne : sym ≠ "") :
    ∃ st', st.applyMove d = some st' ∧ (st'.is_valid d i).1 = false := by
  rcases d with ⟨dr, dc, ds⟩
  replace hs : ds = some sym := hs
  subst ds
  rcases dr with _ | r
  · simp only [TicTacToeState.is_valid] at hv
    split at hv <;> simp_all
  rcases dc with _ | c
  · simp only [TicTacToeState.is_valid] at hv
    split at hv <;> simp_all
  simp only [TicTacToeState.is_valid] at hv
  split at hv
  · exact absurd hv (by simp)
  next hcp =>
    split at hv
    next hbounds => exact absurd hv (by simp)
    next hbounds =>
      have hb : 0 ≤ r ∧ r < 3 ∧ 0 ≤ c ∧ c < 3 := by omega
      split at hv
      next cell hcell =>
        split at hv
        · exact absurd hv (by simp)
        next hcellempty =>
          obtain ⟨b', hset, hget⟩ :=
            boardSet_of_boardGet sym hb.1 hb.2.2.1 hcell
          simp only [TicTacToeState.applyMove, hset]
          by_cases hwin : TicTacToeState.winnerTruthy b' = true
          · rw [if_pos hwin]
            exact ⟨_, rfl,
              is_valid_false_of_occupied _ r c _ i hb sym hget hne⟩
          · rw [if_neg hwin]
            by_cases hdraw : TicTacToeState.is_draw b' = true
            · rw [if_pos hdraw]
              exact ⟨_, rfl,
                is_valid_false_of_occupied _ r c _ i hb sym hget hne⟩
            · rw [if_neg hdraw]
              exact ⟨_, rfl,
                is_valid_false_of_occupied _ r c _ i hb sym hget hne⟩
      next hnone => exact absurd hv (by simp)

/-- Witness for the amended C8 at `(0,0,"X")` on seat 0 from the initial
state. -/
theorem accepted_move_rejected_on_replay_witness :
    (((TicTacToeState.init []).is_valid ⟨some 0, some 0, some "X"⟩ 0).1 = true) ∧
    ((some "X" : Option String) = some "X") ∧ ("X" ≠ "") ∧
    ∃ st', (TicTacToeState.init []).applyMove ⟨some 0, some 0, some "X"⟩ = some st' ∧
      (st'.is_valid ⟨some 0, some 0, some "X"⟩ 0).1 = false :=
  ⟨by decide, rfl, by decide,
    accepted_move_rejected_on_replay (TicTacToeState.init [])
      ⟨some 0, some 0, some "X"⟩ 0 "X" (by decide) rfl (by decide)⟩

/-- Counterexample to C8 as stated: `is_valid` accepts the move
`(0,0,symbol="")` for seat 0 from the initial state, `apply` then writes
the empty string (leaving the cell empty) and hands the turn back to
`"X"`, and the identical command is accepted again. -/
theorem accepted_empty_symbol_move_replayable :
    (((TicTacToeState.init []).is_valid ⟨some 0, some 0, some ""⟩ 0).1 = true) ∧
    (((TicTacToeState.init []).applyMove ⟨some 0, some 0, some ""⟩).map
      (fun s => (s.is_valid ⟨some 0, some 0, some ""⟩ 0).1) = some true) := by
  constructor
  · decide
  · decide

/-- `NexusGame` from `src/nexus/network/game.py` (the `data` dict is never
used by the server and is omitted; `game_state` is the concrete
`TicTacToeState` supplied by `TicTacToeServer.create_initial_game_state`). -/
structure NexusGame where
  name : String
  password : Option String
  max_players : Nat
  phase : GamePhase
  players : List NexusPlayer
  game_state : Option TicTacToeState
  is_matchmaking : Bool
deriving DecidableEq, Repr

/-- Python dict assignment `d[k] = v`: replaces in place if the key is
present (keeping its position, as CPython does), appends otherwise. -/
def dinsert {α : Type} (l : List (String × α)) (k : String) (v : α) :
    List (String × α) :=
  match l with
  | [] => [(k, v)]
  | (k', v') :: rest =>
      if k' = k then (k, v) :: rest else (k', v') :: dinsert rest k v

/-- Python dict deletion `del d[k]` (removes the first entry with the key;
identity when absent, matching the guarded `del` in `end_game`). -/
def ddel {α : Type} (l : List (String × α)) (k : String) :
    List (String × α) :=
  match l with
  | [] => []
  | (k', v') :: rest => if k' = k then rest else (k', v') :: ddel rest k

/-- `list.index` (first index of an equal element, `ValueError` as
`none`). -/
def listIndex {α : Type} [DecidableEq α] (x : α) : List α → Option Nat
  | [] => none
  | y :: ys => if y = x then some 0 else (listIndex x ys).map (· + 1)

/-- Python truthiness of an optional string (`None` and `""` are falsy),
used for the `if player.game_id` guards. -/
def truthyId : Option String → Option String
  | some s => if s = "" then none else some s
  | none => none

/-- One delivered message: the recipient's player id and the update
written to their connection. -/
abbrev Sent : Type := String × Update

/-- The `Error` update built by `send_error` /
`handle_connection`'s exception handler. -/
def errUpd (msg : String) : Update :=
  ⟨.error, [("message", .vStr msg)]⟩

/-- The full server state: the `games` registry, the connection manager's
player map (`socket_to_player`, keyed by the player id that also keys
`player_to_socket`), and the matchmaking queue of player ids. -/
structure ServerState where
  games : List (String × NexusGame)
  conns : List (String × NexusPlayer)
  matchmaking_queue : List String
deriving DecidableEq, Repr

/-- The empty freshly started server. -/
def ServerState.init : ServerState := ⟨[], [], []⟩

/-- `NexusServer.send_game_update`: with a specific recipient the update
is serialized and written unchanged (the per-player projection code in the
source is commented out); with no recipient it recurses once per member of
`game.players`, in list order. -/
def sendGameUpdate (game : NexusGame) (update : Update)
    (specific_player : Option NexusPlayer) : List Sent :=
  match specific_player with
  | some p => [(p.id, update)]
  | none => game.players.map fun p => (p.id, update)

/-- `NexusServer.get_player_game_state`: `list.index` then
`get_player_perspective`; `none` models the `ValueError` (player not in
list) or `AttributeError` (`game_state` is `None`) exceptions. -/
def get_player_game_state (game : NexusGame) (player : NexusPlayer) :
    Option (List (String × Value)) :=
  match listIndex player game.players with
  | none => none
  | some i =>
      match game.game_state with
      | none => none
      | some st => some (st.get_player_perspective i)

/-- `NexusServer.end_game`: clears `game_id` on every member (an in-place
object mutation, visible through the connection map exactly when the map
holds the same record) and removes the game from the registry by its
`name`. -/
def endGame (s : ServerState) (game : NexusGame) : ServerState :=
  { s with
    conns := game.players.foldl
      (fun cs p =>
        if dget cs p.id = some p then
          dinsert cs p.id { p with game_id := none }
        else cs)
      s.conns
    games := ddel s.games game.name }

/-- `NexusServer.create_game`.  The result triple is the new server state,
the messages written, and the Python-exception flag. -/
def createGame (s : ServerState) (player : NexusPlayer) (name : String)
    (password : Option String) (max_players : Nat) :
    ServerState × List Sent × Bool :=
  if (dget s.games name).isSome then
    (s, [(player.id, errUpd "Game name already exists")], false)
  else
    let prec : NexusPlayer := { player with game_id := some name }
    let game : NexusGame :=
      { name := name, password := password, max_players := max_players
        phase := .lobby, players := [prec], game_state := none
        is_matchmaking := false }
    ({ s with games := dinsert s.games name game
              conns := dinsert s.conns player.id prec },
     sendGameUpdate game ⟨.game_created, []⟩ (some prec), false)

/-- The password guard `game.password and game.password != password`
(an empty stored password is falsy). -/
def pwMismatch (stored : Option String) (given : Option String) : Bool :=
  match stored with
  | none => false
  | some p => p ≠ "" && given ≠ some p

/-- The `for p in game.players` send loop at the end of `join_game`:
each iteration computes the player's projection and sends it; an exception
aborts the loop, keeping the earlier sends. -/
def joinSends (game : NexusGame) : List NexusPlayer → List Sent × Bool
  | [] => ([], false)
  | p :: rest =>
      match get_player_game_state game p with
      | none => ([], true)
      | some d =>
          let out := joinSends game rest
          ((p.id, ⟨.game_started, d⟩) :: out.1, out.2)

/-- `NexusServer.join_game`. -/
def joinGame (s : ServerState) (player : NexusPlayer) (game_name : String)
    (password : Option String) : ServerState × List Sent × Bool :=
  match dget s.games game_name with
  | none => (s, [(player.id, errUpd "Game not found")], false)
  | some game =>
    if pwMismatch game.password password then
      (s, [(player.id, errUpd "Invalid password")], false)
    else if game.max_players ≤ game.players.length then
      (s, [(player.id, errUpd "Game is full")], false)
    else
      let prec : NexusPlayer := { player with game_id := some game_name }
      let players2 := game.players ++ [prec]
      let game2 : NexusGame :=
        if players2.length = game.max_players then
          { game with players := players2
                      game_state := some (TicTacToeState.init players2)
                      phase := .in_game }
        else { game with players := players2 }
      let s2 := { s with games := dinsert s.games game_name game2
                         conns := dinsert s.conns player.id prec }
      let out := joinSends game2 players2
      (s2, out.1, out.2)

/-- The per-player loop at the end of `find_game`: create the updated
player record, re-register the connection, then compute and send that
player's projection (the projection lookup indexes the game's player list
by the updated record and raises `ValueError` when no member compares
equal to it). -/
def findSendLoop (game : NexusGame) (game_name : String) :
    List NexusPlayer → List (String × NexusPlayer) →
    List (String × NexusPlayer) × List Sent × Bool
  | [], conns => (conns, [], false)
  | p :: rest, conns =>
      let up : NexusPlayer := { id := p.id, name := p.name, game_id := some game_name }
      let conns2 := dinsert conns p.id up
      match get_player_game_state game up with
      | none => (conns2, [], true)
      | some d =>
          let out := findSendLoop game game_name rest conns2
          (out.1, (up.id, ⟨.game_started, d⟩) :: out.2.1, out.2.2)

/-- `NexusServer.find_game`: append to the queue; with two or more queued
ids, look up both players' current records, pop the two oldest, register a
new in-game session named `match_{len(self.games)}` (overwriting any
existing session of that name) and run the send loop. -/
def findGame (s : ServerState) (player : NexusPlayer) :
    ServerState × List Sent × Bool :=
  if 2 ≤ (s.matchmaking_queue ++ [player.id]).length then
    match ((s.matchmaking_queue ++ [player.id]).take 2).mapM
        (fun pid => dget s.conns pid) with
    | none =>
        ({ s with matchmaking_queue := s.matchmaking_queue ++ [player.id] },
         [], true)
    | some ps =>
        let game_name := "match_" ++ toString s.games.length
        let game : NexusGame :=
          { name := game_name, password := none, max_players := 2
            phase := .in_game, players := ps
            game_state := some (TicTacToeState.init ps)
            is_matchmaking := true }
        let out := findSendLoop game game_name ps s.conns
        ({ games := dinsert s.games game_name game
           conns := out.1
           matchmaking_queue := (s.matchmaking_queue ++ [player.id]).drop 2 },
         out.2.1, out.2.2)
  else
    ({ s with matchmaking_queue := s.matchmaking_queue ++ [player.id] },
     [], false)

/-- `NexusServer.handle_surrender`: mark the phase, send the `GameOver`
update — to the surrendering player only — and tear the session down. -/
def handleSurrender (s : ServerState) (game : NexusGame)
    (player : NexusPlayer) : ServerState × List Sent × Bool :=
  match truthyId player.game_id with
  | none => (s, [], false)
  | some _ =>
      let game2 := { game with phase := .end_game }
      let s2 := { s with games := dinsert s.games game.name game2 }
      let winners := (game2.players.filter (fun p => p ≠ player)).map (·.name)
      let upd : Update :=
        ⟨.game_over,
         [("winner", match winners.head? with
                     | some w => .vStr w
                     | none => .vNone),
          ("reason", .vStr "surrender")]⟩
      (endGame s2 game2, sendGameUpdate game2 upd (some player), false)

/-- The `GameOver` update built at the end of `handle_game_command`:
a truthy `winner` (a non-empty string) yields a win, otherwise a draw with
a null winner. -/
def gameOverUpd (st2 : TicTacToeState) : Update :=
  match st2.winner with
  | some w =>
      if w ≠ "" then
        ⟨.game_over, [("winner", .vStr w), ("reason", .vStr "win")]⟩
      else
        ⟨.game_over, [("winner", .vNone), ("reason", .vStr "draw")]⟩
  | none => ⟨.game_over, [("winner", .vNone), ("reason", .vStr "draw")]⟩

/-- `NexusServer.handle_game_command` (reached only for `MAKE_MOVE` after
`validate_game_command`): index the sender, validate, apply, broadcast the
raw `Update(GAME_STATE_UPDATE, command.data)`, and on `game_over` mark the
phase and broadcast `GameOver` — without tearing the session down. -/
def handleGameCommand (s : ServerState) (game : NexusGame)
    (player : NexusPlayer) (m : MoveData) : ServerState × List Sent × Bool :=
  match listIndex player game.players with
  | none => (s, [], true)
  | some player_index =>
      match game.game_state with
      | none => (s, [], true)
      | some st =>
          if (st.is_valid m player_index).1 = false then
            (s, [(player.id, errUpd (st.is_valid m player_index).2)], false)
          else
            match st.applyMove m with
            | none => (s, [], true)
            | some st2 =>
                if st2.game_over then
                  ({ s with games :=
                      (dinsert s.games game.name
                        { game with game_state := some st2, phase := .end_game }) },
                   sendGameUpdate { game with game_state := some st2 }
                     ⟨.game_state_update, m.toDict⟩ none ++
                   sendGameUpdate { game with game_state := some st2, phase := .end_game }
                     (gameOverUpd st2) none,
                   false)
                else
                  ({ s with games :=
                      (dinsert s.games game.name
                        { game with game_state := some st2 }) },
                   sendGameUpdate { game with game_state := some st2 }
                     ⟨.game_state_update, m.toDict⟩ none,
                   false)

/-- `NexusServer.handle_disconnect` as a function of the disconnecting
player's record: drop the id from the matchmaking queue; when the record
names a session, remove the player from it, tear the session down if fewer
than two remain, and otherwise send `game.players[0]` — only — that first
player's own projection. -/
def handleDisconnect (s : ServerState) (player : NexusPlayer) :
    ServerState × List Sent × Bool :=
  match truthyId player.game_id with
  | none =>
      ({ s with matchmaking_queue := s.matchmaking_queue.erase player.id },
       [], false)
  | some gid =>
      match dget s.games gid with
      | none =>
          ({ s with matchmaking_queue := s.matchmaking_queue.erase player.id },
           [], true)
      | some game =>
          if player ∈ game.players then
            if (game.players.erase player).length < 2 then
              (endGame
                { games :=
                    (dinsert s.games gid
                      { game with players := game.players.erase player })
                  conns := s.conns
                  matchmaking_queue := s.matchmaking_queue.erase player.id }
                { game with players := game.players.erase player },
               [], false)
            else
              match (game.players.erase player).head? with
              | none =>
                  ({ games :=
                       (dinsert s.games gid
                         { game with players := game.players.erase player })
                     conns := s.conns
                     matchmaking_queue := s.matchmaking_queue.erase player.id },
                   [], true)
              | some p0 =>
                  match get_player_game_state
                      { game with players := game.players.erase player } p0 with
                  | none =>
                      ({ games :=
                           (dinsert s.games gid
                             { game with players := game.players.erase player })
                         conns := s.conns
                         matchmaking_queue := s.matchmaking_queue.erase player.id },
                       [], true)
                  | some d =>
                      ({ games :=
                           (dinsert s.games gid
                             { game with players := game.players.erase player })
                         conns := s.conns
                         matchmaking_queue := s.matchmaking_queue.erase player.id },
                       sendGameUpdate
                         { game with players := game.players.erase player }
                         ⟨.game_state_update, d⟩ (some p0), false)
          else
            ({ s with matchmaking_queue := s.matchmaking_queue.erase player.id },
             [], true)

/-- The inbound commands of the wire protocol, with the `data` fields the
handlers read. -/
inductive Cmd where
  | createGame (game_name : String) (password : Option String)
      (player_name : String) (max_players : Nat) : Cmd
  | joinGame (game_name : String) (password : Option String)
      (player_name : String) : Cmd
  | findGame (player_name : String) : Cmd
  | makeMove (m : MoveData) : Cmd
  | surrender : Cmd
deriving DecidableEq, Repr

/-- `NexusServer.handle_command`: for `CREATE_GAME` / `JOIN_GAME` /
`FIND_GAME`, re-register the connection under a fresh record carrying the
submitted name (preserving `game_id`) and dispatch; otherwise resolve the
sender's game (silently returning when there is none), dispatch
`SURRENDER`, and gate `MAKE_MOVE` on the `IN_GAME` phase
(`validate_game_command`). -/
def handleCommandCore (s : ServerState) (pid : String) (cmd : Cmd) :
    ServerState × List Sent × Bool :=
  match dget s.conns pid with
  | none => (s, [], true)
  | some player =>
      match cmd with
      | .createGame gname pw pname maxp =>
          let np : NexusPlayer := { id := player.id, name := pname, game_id := player.game_id }
          createGame { s with conns := dinsert s.conns player.id np } np gname pw maxp
      | .joinGame gname pw pname =>
          let np : NexusPlayer := { id := player.id, name := pname, game_id := player.game_id }
          joinGame { s with conns := dinsert s.conns player.id np } np gname pw
      | .findGame pname =>
          let np : NexusPlayer := { id := player.id, name := pname, game_id := player.game_id }
          findGame { s with conns := dinsert s.conns player.id np } np
      | .makeMove m =>
          match truthyId player.game_id with
          | none => (s, [], false)
          | some gid =>
              match dget s.games gid with
              | none => (s, [], false)
              | some game =>
                  if game.phase ≠ .in_game then (s, [], false)
                  else handleGameCommand s game player m
      | .surrender =>
          match truthyId player.game_id with
          | none => (s, [], false)
          | some gid =>
              match dget s.games gid with
              | none => (s, [], false)
              | some game => handleSurrender s game player

/-- `handle_connection`'s message loop around `handle_command`: a Python
exception is caught and surfaced to the sender as a generic
`Error: {str(e)}` update (the exception text is modelled by the fixed
string `"Error: internal"`). -/
def handleCommand (s : ServerState) (pid : String) (cmd : Cmd) :
    ServerState × List Sent :=
  if (handleCommandCore s pid cmd).2.2 then
    ((handleCommandCore s pid cmd).1,
     (handleCommandCore s pid cmd).2.1 ++ [(pid, errUpd "Error: internal")])
  else ((handleCommandCore s pid cmd).1, (handleCommandCore s pid cmd).2.1)

/-- The connection-closed path: `handle_disconnect` for the closing
player, then `remove_connection` in the `finally` block.
`handle_connection` passes the `player` record it built at connect time
(server.py lines 68 and 91); the handlers only register fresh records in
the connection map and never mutate that one, so its `game_id` is still
`None` here.  The session-removal branch of `handle_disconnect` therefore
never fires on this path: only the matchmaking-queue erase runs, and
`remove_connection` then drops the map entry for the socket. -/
def disconnectStep (s : ServerState) (pid : String) : ServerState :=
  let out := handleDisconnect s { id := pid, name := "", game_id := none }
  { out.1 with conns := ddel out.1.conns pid }

/-- One externally triggered server operation. -/
inductive Op where
  | connect (pid : String) : Op
  | command (pid : String) (cmd : Cmd) : Op
  | disconnect (pid : String) : Op
deriving DecidableEq, Repr

/-- The state transition of one operation: a new connection registers a
fresh anonymous player record; a command runs `handle_command`; a closed
connection runs the disconnect path. -/
def stepOp (s : ServerState) (op : Op) : ServerState :=
  match op with
  | .connect pid =>
      { s with conns := dinsert s.conns pid { id := pid, name := "", game_id := none } }
  | .command pid cmd => (handleCommand s pid cmd).1
  | .disconnect pid => disconnectStep s pid

/-- Well-formed operations: `create_game` requests carry the spec's
`max_players >= 2` (data-model constraint; the wire default is 2). -/
abbrev OpOK : Op → Prop
  | .command _ (.createGame _ _ _ maxp) => 2 ≤ maxp
  | _ => True

/-- Well-formedness of an operation is decidable. -/
instance (op : Op) : Decidable (OpOK op) :=
  match op with
  | .connect _ => inferInstanceAs (Decidable True)
  | .command _ (.createGame _ _ _ maxp) => inferInstanceAs (Decidable (2 ≤ maxp))
  | .command _ (.joinGame _ _ _) => inferInstanceAs (Decidable True)
  | .command _ (.findGame _) => inferInstanceAs (Decidable True)
  | .command _ (.makeMove _) => inferInstanceAs (Decidable True)
  | .command _ .surrender => inferInstanceAs (Decidable True)
  | .disconnect _ => inferInstanceAs (Decidable True)

/-- Server states reachable from a fresh server by well-formed
operations. -/
inductive Reachable : ServerState → Prop where
  | init : Reachable ServerState.init
  | step (s : ServerState) (op : Op) (h : Reachable s) (hok : OpOK op) :
      Reachable (stepOp s op)

/-- Characterization of lookup after insert. -/
theorem dget_dinsert {α : Type} (l : List (String × α)) (k k2 : String) (v : α) :
    dget (dinsert l k v) k2 = if k = k2 then some v else dget l k2 := by
  induction l with
  | nil => simp only [dinsert, dget]
  | cons hd tl ih =>
      obtain ⟨k', v'⟩ := hd
      simp only [dinsert]
      by_cases h1 : k' = k
      · subst h1
        simp only [if_pos rfl, dget]
        by_cases h2 : k' = k2
        · subst h2; simp
        · simp [h2]
      · rw [if_neg h1]
        simp only [dget]
        by_cases h2 : k' = k2
        · subst h2
          rw [if_pos rfl, if_pos rfl, if_neg (fun h => h1 h.symm)]
        · rw [if_neg h2, if_neg h2, ih]

/-- An entry of an insert result is an old entry or the inserted pair. -/
theorem mem_dinsert {α : Type} {l : List (String × α)} {k : String} {v : α}
    {x : String × α} (h : x ∈ dinsert l k v) : x ∈ l ∨ x = (k, v) := by
  induction l with
  | nil => simpa [dinsert] using h
  | cons hd tl ih =>
      obtain ⟨k', v'⟩ := hd
      simp only [dinsert] at h
      by_cases h1 : k' = k
      · rw [if_pos h1] at h
        rcases List.mem_cons.mp h with h2 | h2
        · exact Or.inr h2
        · exact Or.inl (List.mem_cons_of_mem _ h2)
      · rw [if_neg h1] at h
        rcases List.mem_cons.mp h with h2 | h2
        · exact Or.inl (h2 ▸ List.mem_cons_self _ _)
        · rcases ih h2 with h3 | h3
          · exact Or.inl (List.mem_cons_of_mem _ h3)
          · exact Or.inr h3

/-- An entry of a delete result is an old entry. -/
theorem mem_ddel {α : Type} {l : List (String × α)} {k : String}
    {x : String × α} (h : x ∈ ddel l k) : x ∈ l := by
  induction l with
  | nil => simp [ddel] at h
  | cons hd tl ih =>
      obtain ⟨k', v'⟩ := hd
      simp only [ddel] at h
      by_cases h1 : k' = k
      · rw [if_pos h1] at h
        exact List.mem_cons_of_mem _ h
      · rw [if_neg h1] at h
        rcases List.mem_cons.mp h with h2 | h2
        · exact h2 ▸ List.mem_cons_self _ _
        · exact List.mem_cons_of_mem _ (ih h2)

/-- Deleting the key just inserted leaves only old entries. -/
theorem mem_ddel_dinsert {α : Type} {l : List (String × α)} {k : String}
    {v : α} {x : String × α} (h : x ∈ ddel (dinsert l k v) k) : x ∈ l := by
  induction l with
  | nil => simp [dinsert, ddel] at h
  | cons hd tl ih =>
      obtain ⟨k', v'⟩ := hd
      simp only [dinsert] at h
      by_cases h1 : k' = k
      · rw [if_pos h1] at h
        simp only [ddel, if_pos rfl] at h
        subst h1
        exact List.mem_cons_of_mem _ h
      · rw [if_neg h1] at h
        simp only [ddel, if_neg h1] at h
        rcases List.mem_cons.mp h with h2 | h2
        · exact h2 ▸ List.mem_cons_self _ _
        · exact List.mem_cons_of_mem _ (ih h2)

/-- A successful lookup is a membership. -/
theorem dget_mem {α : Type} {l : List (String × α)} {k : String} {v : α}
    (h : dget l k = some v) : (k, v) ∈ l := by
  induction l with
  | nil => simp [dget] at h
  | cons hd tl ih =>
      obtain ⟨k', v'⟩ := hd
      simp only [dget] at h
      by_cases h1 : k' = k
      · rw [if_pos h1] at h
        subst h1
        cases h
        exact List.mem_cons_self _ _
      · rw [if_neg h1] at h
        exact List.mem_cons_of_mem _ (ih h)

/-- Inserting preserves key distinctness. -/
theorem keys_nodup_dinsert {α : Type} {l : List (String × α)} {k : String}
    {v : α} (h : (l.map Prod.fst).Nodup) :
    ((dinsert l k v).map Prod.fst).Nodup := by
  induction l with
  | nil => simp [dinsert]
  | cons hd tl ih =>
      obtain ⟨k', v'⟩ := hd
      simp only [List.map, List.nodup_cons] at h
      by_cases h1 : k' = k
      · subst h1
        simp only [dinsert, if_pos rfl, List.map, List.nodup_cons]
        exact h
      · simp only [dinsert, if_neg h1, List.map, List.nodup_cons]
        refine ⟨?_, ih h.2⟩
        intro hmem
        rcases List.mem_map.mp hmem with ⟨x, hx, hfst⟩
        rcases mem_dinsert hx with h2 | h2
        · exact h.1 (hfst ▸ List.mem_map_of_mem Prod.fst h2)
        · subst h2
          exact h1 hfst.symm

/-- Deleting preserves key distinctness. -/
theorem keys_nodup_ddel {α : Type} {l : List (String × α)} {k : String}
    (h : (l.map Prod.fst).Nodup) : ((ddel l k).map Prod.fst).Nodup := by
  induction l with
  | nil => simp [ddel]
  | cons hd tl ih =>
      obtain ⟨k', v'⟩ := hd
      simp only [List.map, List.nodup_cons] at h
      by_cases h1 : k' = k
      · simp only [ddel, if_pos h1]
        exact h.2
      · simp only [ddel, if_neg h1, List.map, List.nodup_cons]
        refine ⟨?_, ih h.2⟩
        intro hmem
        rcases List.mem_map.mp hmem with ⟨x, hx, hfst⟩
        exact h.1 (hfst ▸ List.mem_map_of_mem Prod.fst (mem_ddel hx))

/-- With distinct keys, a deleted key no longer resolves. -/
theorem dget_ddel_of_nodup {α : Type} {l : List (String × α)} {k : String}
    (h : (l.map Prod.fst).Nodup) : dget (ddel l k) k = none := by
  induction l with
  | nil => simp [ddel, dget]
  | cons hd tl ih =>
      obtain ⟨k', v'⟩ := hd
      simp only [List.map, List.nodup_cons] at h
      by_cases h1 : k' = k
      · subst h1
        have hd : ddel ((k', v') :: tl) k' = tl := by simp [ddel]
        rw [hd]
        rcases hres : dget tl k' with _ | w
        · rfl
        · exact absurd (List.mem_map_of_mem Prod.fst (dget_mem hres)) h.1
      · simp only [ddel, if_neg h1, dget, if_neg h1]
        exact ih h.2

/-- A successful `Option.mapM` preserves the list length. -/
theorem mapM_option_length {α β : Type} (f : α → Option β) :
    ∀ (l : List α) (l2 : List β), l.mapM f = some l2 → l2.length = l.length := by
  intro l
  induction l with
  | nil => intro l2 h; simp only [List.mapM_nil, Option.pure_def] at h; cases h; rfl
  | cons x xs ih =>
      intro l2 h
      rw [List.mapM_cons] at h
      rcases hx : f x with _ | y
      · rw [hx] at h; simp at h
      · rw [hx] at h
        rcases hxs : xs.mapM f with _ | ys
        · rw [hxs] at h; simp at h
        · rw [hxs] at h
          simp only [Option.pure_def, Option.bind_eq_bind, Option.some_bind] at h
          cases h
          simp [ih ys hxs]

/-- Deleting one key leaves other keys' lookups unchanged. -/
theorem dget_ddel_ne {α : Type} {l : List (String × α)} {k k2 : String}
    (h : k ≠ k2) : dget (ddel l k) k2 = dget l k2 := by
  induction l with
  | nil => simp [ddel, dget]
  | cons hd tl ih =>
      obtain ⟨k', v'⟩ := hd
      simp only [ddel, dget]
      by_cases h1 : k' = k
      · subst h1
        rw [if_pos rfl, if_neg h]
      · rw [if_neg h1, dget]
        by_cases h2 : k' = k2
        · rw [if_pos h2, if_pos h2]
        · rw [if_neg h2, if_neg h2, ih]

/-- The per-session invariant: the roster never exceeds capacity and a
game state exists exactly outside the Lobby phase. -/
def SessionOK (g : NexusGame) : Prop :=
  g.players.length ≤ g.max_players ∧
    (g.game_state.isSome ↔ g.phase ≠ GamePhase.lobby)

/-- Numeric rank of a session phase in the total order
Lobby < InGame < EndGame. -/
def phaseIdx : GamePhase → Nat
  | .lobby => 0
  | .in_game => 1
  | .end_game => 2

/-- The server-state invariant maintained by every operation: sessions
are `SessionOK`, each registry entry's session carries its key as its
name, every session outside the Lobby phase is exactly at capacity,
registry and connection keys are distinct, each connection record carries
its own key as id, the matchmaking queue never retains two entries, and
every queued id has a live connection record. -/
structure Inv (s : ServerState) : Prop where
  sessions : ∀ kv ∈ s.games, SessionOK kv.2
  keyname : ∀ kv ∈ s.games, kv.2.name = kv.1
  full : ∀ kv ∈ s.games, kv.2.phase ≠ GamePhase.lobby →
    kv.2.players.length = kv.2.max_players
  gnodup : (s.games.map Prod.fst).Nodup
  cnodup : (s.conns.map Prod.fst).Nodup
  cid : ∀ kv ∈ s.conns, kv.2.id = kv.1
  qlen : s.matchmaking_queue.length ≤ 1
  qconn : ∀ pid ∈ s.matchmaking_queue, (dget s.conns pid).isSome

/-- Re-registering a connection record under its own id preserves the
invariant. -/
theorem inv_conns_dinsert {s : ServerState} (h : Inv s) (p : NexusPlayer) :
    Inv { s with conns := dinsert s.conns p.id p } := by
  refine ⟨h.sessions, h.keyname, h.full, h.gnodup,
    keys_nodup_dinsert h.cnodup, ?_, h.qlen, ?_⟩
  · intro kv hkv
    rcases mem_dinsert hkv with h1 | h1
    · exact h.cid kv h1
    · subst h1; rfl
  · intro pid hpid
    rw [dget_dinsert]
    split
    · simp
    · exact h.qconn pid hpid

/-- The `end_game` connection fold preserves key distinctness, id
agreement, and lookup success. -/
theorem endGame_fold_inv (ps : List NexusPlayer)
    (cs : List (String × NexusPlayer))
    (hnodup : (cs.map Prod.fst).Nodup) (hcid : ∀ kv ∈ cs, kv.2.id = kv.1) :
    ((ps.foldl
      (fun cs p =>
        if dget cs p.id = some p then dinsert cs p.id { p with game_id := none }
        else cs) cs).map Prod.fst).Nodup ∧
    (∀ kv ∈ ps.foldl
      (fun cs p =>
        if dget cs p.id = some p then dinsert cs p.id { p with game_id := none }
        else cs) cs, kv.2.id = kv.1) ∧
    (∀ pid, (dget cs pid).isSome → (dget (ps.foldl
      (fun cs p =>
        if dget cs p.id = some p then dinsert cs p.id { p with game_id := none }
        else cs) cs) pid).isSome) := by
  induction ps generalizing cs with
  | nil => exact ⟨hnodup, hcid, fun _ h => h⟩
  | cons p rest ih =>
      simp only [List.foldl_cons]
      by_cases hc : dget cs p.id = some p
      · rw [if_pos hc]
        have hnodup2 := keys_nodup_dinsert (k := p.id)
          (v := { p with game_id := none }) hnodup
        have hcid2 : ∀ kv ∈ dinsert cs p.id { p with game_id := none },
            kv.2.id = kv.1 := by
          intro kv hkv
          rcases mem_dinsert hkv with h1 | h1
          · exact hcid kv h1
          · subst h1; rfl
        obtain ⟨a, b, c⟩ := ih _ hnodup2 hcid2
        refine ⟨a, b, fun pid hpid => c pid ?_⟩
        rw [dget_dinsert]
        split
        · simp
        · exact hpid
      · rw [if_neg hc]
        exact ih cs hnodup hcid

/-- The `find_game` send loop preserves key distinctness, id agreement,
and lookup success of the connection map. -/
theorem findSendLoop_inv (game : NexusGame) (game_name : String)
    (ps : List NexusPlayer) (cs : List (String × NexusPlayer))
    (hnodup : (cs.map Prod.fst).Nodup) (hcid : ∀ kv ∈ cs, kv.2.id = kv.1) :
    ((findSendLoop game game_name ps cs).1.map Prod.fst).Nodup ∧
      (∀ kv ∈ (findSendLoop game game_name ps cs).1, kv.2.id = kv.1) ∧
      (∀ pid, (dget cs pid).isSome →
        (dget (findSendLoop game game_name ps cs).1 pid).isSome) := by
  induction ps generalizing cs with
  | nil => exact ⟨hnodup, hcid, fun _ h => h⟩
  | cons p rest ih =>
      simp only [findSendLoop]
      have hnodup2 := keys_nodup_dinsert
        (k := p.id) (v := { id := p.id, name := p.name, game_id := some game_name })
        hnodup
      have hcid2 : ∀ kv ∈ dinsert cs p.id
          { id := p.id, name := p.name, game_id := some game_name },
          kv.2.id = kv.1 := by
        intro kv hkv
        rcases mem_dinsert hkv with h1 | h1
        · exact hcid kv h1
        · subst h1; rfl
      have hsome : ∀ pid, (dget cs pid).isSome →
          (dget (dinsert cs p.id
            { id := p.id, name := p.name, game_id := some game_name }) pid).isSome := by
        intro pid hpid
        rw [dget_dinsert]
        split
        · simp
        · exact hpid
      rcases hg : get_player_game_state game
          { id := p.id, name := p.name, game_id := some game_name } with _ | d
      · exact ⟨hnodup2, hcid2, fun pid hpid => hsome pid hpid⟩
      · obtain ⟨a, b, c⟩ := ih _ hnodup2 hcid2
        exact ⟨a, b, fun pid hpid => c pid (hsome pid hpid)⟩

/-- `create_game` preserves the server invariant (the spec constrains
`max_players` to at least 2; `1 ≤ maxp` suffices here). -/
theorem inv_createGame (s : ServerState) (np : NexusPlayer) (gname : String)
    (pw : Option String) (maxp : Nat) (h : Inv s) (hm : 1 ≤ maxp) :
    Inv (createGame s np gname pw maxp).1 := by
  unfold createGame
  split
  · exact h
  · refine ⟨?_, ?_, ?_, keys_nodup_dinsert h.gnodup, keys_nodup_dinsert h.cnodup,
      ?_, h.qlen, ?_⟩
    · intro kv hkv
      rcases mem_dinsert hkv with h1 | h1
      · exact h.sessions kv h1
      · subst h1
        exact ⟨by simpa using hm, by simp⟩
    · intro kv hkv
      rcases mem_dinsert hkv with h1 | h1
      · exact h.keyname kv h1
      · subst h1; rfl
    · intro kv hkv
      rcases mem_dinsert hkv with h1 | h1
      · exact h.full kv h1
      · subst h1
        intro hph
        exact absurd rfl hph
    · intro kv hkv
      rcases mem_dinsert hkv with h1 | h1
      · exact h.cid kv h1
      · subst h1; rfl
    · intro pid hpid
      rw [dget_dinsert]
      split
      · simp
      · exact h.qconn pid hpid

/-- The session built by a successful (non-full-rejected) `join_game`
step satisfies the per-session invariant. -/
theorem sessionOK_join (game : NexusGame) (prec : NexusPlayer)
    (hok : SessionOK game)
    (hfull : ¬ game.max_players ≤ game.players.length) :
    SessionOK
      (if (game.players ++ [prec]).length = game.max_players then
        { game with players := game.players ++ [prec]
                    game_state := some (TicTacToeState.init (game.players ++ [prec]))
                    phase := .in_game }
      else { game with players := game.players ++ [prec] }) := by
  split
  next hfc =>
    refine ⟨?_, by simp⟩
    simp only [List.length_append, List.length_singleton] at hfc ⊢
    omega
  next hfc =>
    refine ⟨?_, ?_⟩
    · have := List.length_append game.players [prec]
      simp only [List.length_append, List.length_singleton]
      omega
    · exact hok.2

/-- `join_game` preserves the server invariant. -/
theorem inv_joinGame (s : ServerState) (np : NexusPlayer) (gname : String)
    (pw : Option String) (h : Inv s) : Inv (joinGame s np gname pw).1 := by
  unfold joinGame
  split
  · exact h
  next game heq =>
    have hok : SessionOK game := h.sessions (gname, game) (dget_mem heq)
    split
    · exact h
    split
    · exact h
    next hfull =>
      have hkey : game.name = gname := h.keyname (gname, game) (dget_mem heq)
      have hfl : game.phase ≠ GamePhase.lobby →
          game.players.length = game.max_players :=
        h.full (gname, game) (dget_mem heq)
      refine ⟨?_, ?_, ?_, keys_nodup_dinsert h.gnodup, keys_nodup_dinsert h.cnodup,
        ?_, h.qlen, ?_⟩
      · intro kv hkv
        rcases mem_dinsert hkv with h1 | h1
        · exact h.sessions kv h1
        · subst h1
          exact sessionOK_join game _ hok hfull
      · intro kv hkv
        rcases mem_dinsert hkv with h1 | h1
        · exact h.keyname kv h1
        · subst h1
          split
          · exact hkey
          · exact hkey
      · intro kv hkv
        rcases mem_dinsert hkv with h1 | h1
        · exact h.full kv h1
        · subst h1
          split
          next hfc => intro _; exact hfc
          next hfc =>
            intro hph
            have := hfl hph
            omega
      · intro kv hkv
        rcases mem_dinsert hkv with h1 | h1
        · exact h.cid kv h1
        · subst h1; rfl
      · intro pid hpid
        rw [dget_dinsert]
        split
        · simp
        · exact h.qconn pid hpid

/-- In a list of at most one element, erasing `x` leaves no occurrence of
`x`. -/
theorem mem_erase_ne_of_short {α : Type} [DecidableEq α] {q : List α}
    (h : q.length ≤ 1) {x y : α} (hy : y ∈ q.erase x) : y ≠ x := by
  match q with
  | [] => simp at hy
  | [a] =>
      by_cases hax : a = x
      · subst hax
        simp [List.erase_cons_head] at hy
      · rw [List.erase_cons_tail] at hy
        · rcases List.mem_cons.mp hy with h1 | h1
          · subst h1; exact hax
          · simp at h1
        · simp [hax]
  | a :: b :: rest => simp at h

/-- `find_game` preserves the server invariant; the requester's record is
registered in the connection map before the call
(`handle_command` re-registers it). -/
theorem inv_findGame (s : ServerState) (player : NexusPlayer) (h : Inv s)
    (hp : (dget s.conns player.id).isSome) : Inv (findGame s player).1 := by
  unfold findGame
  split
  next hlen =>
    have hq1 : s.matchmaking_queue.length = 1 := by
      have := h.qlen
      simp only [List.length_append, List.length_singleton] at hlen
      omega
    obtain ⟨q0, hq0⟩ := List.length_eq_one.mp hq1
    obtain ⟨a, ha⟩ := Option.isSome_iff_exists.mp
      (h.qconn q0 (by rw [hq0]; exact List.mem_singleton_self q0))
    obtain ⟨b, hb⟩ := Option.isSome_iff_exists.mp hp
    split
    next heq =>
      exfalso
      rw [hq0] at heq
      simp [List.mapM, List.mapM.loop, ha, hb] at heq
    next ps heq =>
      have hlen2 : ps.length = 2 := by
        have := mapM_option_length _ _ _ heq
        rw [hq0] at this
        simpa using this
      refine ⟨?_, ?_, ?_, keys_nodup_dinsert h.gnodup, ?_, ?_, ?_, ?_⟩
      · intro kv hkv
        rcases mem_dinsert hkv with h1 | h1
        · exact h.sessions kv h1
        · subst h1
          exact ⟨by simp [hlen2], by simp⟩
      · intro kv hkv
        rcases mem_dinsert hkv with h1 | h1
        · exact h.keyname kv h1
        · subst h1; rfl
      · intro kv hkv
        rcases mem_dinsert hkv with h1 | h1
        · exact h.full kv h1
        · subst h1
          intro _
          simp [hlen2]
      · exact (findSendLoop_inv _ _ _ _ h.cnodup h.cid).1
      · exact (findSendLoop_inv _ _ _ _ h.cnodup h.cid).2.1
      · rw [hq0]
        simp
      · intro pid hpid
        rw [hq0] at hpid
        simp at hpid
  next hlen =>
    refine ⟨h.sessions, h.keyname, h.full, h.gnodup, h.cnodup, h.cid, ?_, ?_⟩
    · simp only [List.length_append, List.length_singleton] at hlen ⊢
      omega
    · intro pid hpid
      rcases List.mem_append.mp hpid with h1 | h1
      · exact h.qconn pid h1
      · rw [List.mem_singleton.mp h1]
        exact hp

/-- `handle_surrender` preserves the server invariant (the surrendered
session leaves the registry before the operation completes). -/
theorem inv_handleSurrender (s : ServerState) (game : NexusGame)
    (player : NexusPlayer) (h : Inv s) :
    Inv (handleSurrender s game player).1 := by
  unfold handleSurrender
  split
  · exact h
  · refine ⟨?_, ?_, ?_, ?_, ?_, ?_, h.qlen, ?_⟩
    · intro kv hkv
      exact h.sessions kv (mem_ddel_dinsert hkv)
    · intro kv hkv
      exact h.keyname kv (mem_ddel_dinsert hkv)
    · intro kv hkv
      exact h.full kv (mem_ddel_dinsert hkv)
    · exact keys_nodup_ddel (keys_nodup_dinsert h.gnodup)
    · exact (endGame_fold_inv _ _ h.cnodup h.cid).1
    · exact (endGame_fold_inv _ _ h.cnodup h.cid).2.1
    · intro pid hpid
      exact (endGame_fold_inv _ _ h.cnodup h.cid).2.2 pid (h.qconn pid hpid)

/-- `handle_game_command` preserves the server invariant. -/
theorem inv_handleGameCommand (s : ServerState) (game : NexusGame)
    (player : NexusPlayer) (m : MoveData) (h : Inv s)
    (hok : SessionOK game)
    (hfl : game.phase ≠ GamePhase.lobby →
      game.players.length = game.max_players) :
    Inv (handleGameCommand s game player m).1 := by
  unfold handleGameCommand
  split
  · exact h
  next player_index heq =>
    split
    · exact h
    next st hst =>
      split
      · exact h
      next hvalid =>
        split
        · exact h
        next st2 happly =>
          have hphase : game.phase ≠ GamePhase.lobby := by
            apply hok.2.mp
            rw [hst]
            rfl
          split
          next hover =>
            refine ⟨?_, ?_, ?_, keys_nodup_dinsert h.gnodup, h.cnodup, h.cid,
              h.qlen, h.qconn⟩
            · intro kv hkv
              rcases mem_dinsert hkv with h1 | h1
              · exact h.sessions kv h1
              · subst h1
                exact ⟨hok.1, by simp⟩
            · intro kv hkv
              rcases mem_dinsert hkv with h1 | h1
              · exact h.keyname kv h1
              · subst h1; rfl
            · intro kv hkv
              rcases mem_dinsert hkv with h1 | h1
              · exact h.full kv h1
              · subst h1
                intro _
                exact hfl hphase
          next hover =>
            refine ⟨?_, ?_, ?_, keys_nodup_dinsert h.gnodup, h.cnodup, h.cid,
              h.qlen, h.qconn⟩
            · intro kv hkv
              rcases mem_dinsert hkv with h1 | h1
              · exact h.sessions kv h1
              · subst h1
                exact ⟨hok.1, by simp [hphase]⟩
            · intro kv hkv
              rcases mem_dinsert hkv with h1 | h1
              · exact h.keyname kv h1
              · subst h1; rfl
            · intro kv hkv
              rcases mem_dinsert hkv with h1 | h1
              · exact h.full kv h1
              · subst h1
                intro _
                exact hfl hphase

/-- `handle_command` preserves the server invariant. -/
theorem inv_handleCommandCore (s : ServerState) (pid : String) (cmd : Cmd)
    (h : Inv s) (hok : OpOK (.command pid cmd)) :
    Inv (handleCommandCore s pid cmd).1 := by
  unfold handleCommandCore
  split
  · exact h
  next player heq =>
    match cmd with
    | .createGame gname pw pname maxp =>
        exact inv_createGame _ _ gname pw maxp
          (inv_conns_dinsert h { id := player.id, name := pname, game_id := player.game_id })
          (le_trans (by omega) hok)
    | .joinGame gname pw pname =>
        exact inv_joinGame _ _ gname pw
          (inv_conns_dinsert h { id := player.id, name := pname, game_id := player.game_id })
    | .findGame pname =>
        refine inv_findGame _ _
          (inv_conns_dinsert h { id := player.id, name := pname, game_id := player.game_id })
          ?_
        rw [dget_dinsert]
        simp
    | .makeMove m =>
        simp only
        split
        · exact h
        · split
          · exact h
          next game heq2 =>
            split
            · exact h
            · exact inv_handleGameCommand _ _ _ _ h
                (h.sessions (_, game) (dget_mem heq2))
                (h.full (_, game) (dget_mem heq2))
    | .surrender =>
        simp only
        split
        · exact h
        · split
          · exact h
          next game heq2 =>
            exact inv_handleSurrender _ _ _ h

/-- Every operation preserves the server invariant. -/
theorem inv_stepOp (s : ServerState) (op : Op) (h : Inv s) (hok : OpOK op) :
    Inv (stepOp s op) := by
  cases op with
  | connect cpid =>
      exact inv_conns_dinsert h { id := cpid, name := "", game_id := none }
  | command cpid cmd =>
      have hc : (handleCommand s cpid cmd).1 = (handleCommandCore s cpid cmd).1 := by
        unfold handleCommand
        split <;> rfl
      show Inv ((handleCommand s cpid cmd).1)
      rw [hc]
      exact inv_handleCommandCore s cpid cmd h hok
  | disconnect dpid =>
      show Inv (disconnectStep s dpid)
      refine ⟨h.sessions, h.keyname, h.full, h.gnodup,
        keys_nodup_ddel h.cnodup, ?_, ?_, ?_⟩
      · intro kv hkv
        exact h.cid kv (mem_ddel hkv)
      · exact le_trans (List.erase_sublist _ _).length_le h.qlen
      · intro pid2 hpid2
        have hne : pid2 ≠ dpid := mem_erase_ne_of_short h.qlen hpid2
        show (dget (ddel s.conns dpid) pid2).isSome = true
        rw [dget_ddel_ne (fun hh => hne hh.symm)]
        exact h.qconn pid2 (List.mem_of_mem_erase hpid2)

/-- Every reachable server state satisfies the invariant. -/
theorem reachable_inv (s : ServerState) (h : Reachable s) : Inv s := by
  induction h with
  | init =>
      refine ⟨?_, ?_, ?_, ?_, ?_, ?_, ?_, ?_⟩ <;> simp [ServerState.init]
  | step s2 op h2 hok ih => exact inv_stepOp s2 op ih hok

/-- Run a sequence of operations from a state. -/
def runOps (s : ServerState) (ops : List Op) : ServerState :=
  ops.foldl stepOp s

/-- Folding well-formed operations preserves reachability. -/
theorem reachable_runOps (s : ServerState) (ops : List Op)
    (h : Reachable s) (hok : ∀ op ∈ ops, OpOK op) :
    Reachable (runOps s ops) := by
  induction ops generalizing s with
  | nil => exact h
  | cons op rest ih =>
      exact ih (stepOp s op)
        (Reachable.step s op h (hok op (List.mem_cons_self _ _)))
        (fun o ho => hok o (List.mem_cons_of_mem _ ho))

/-- A three-player tic-tac-toe session played to a win through the
router; the session stays in the registry in the `EndGame` phase because
`handle_game_command` never tears it down. -/
def opsFinishedGame : List Op :=
  [.connect "A",
   .command "A" (.createGame "g" none "alice" 3),
   .connect "B",
   .command "B" (.joinGame "g" none "bob"),
   .connect "C",
   .command "C" (.joinGame "g" none "caro"),
   .command "A" (.makeMove ⟨some 0, some 0, some "X"⟩),
   .command "B" (.makeMove ⟨some 1, some 0, some "O"⟩),
   .command "A" (.makeMove ⟨some 0, some 1, some "X"⟩),
   .command "C" (.makeMove ⟨some 1, some 1, some "O"⟩),
   .command "A" (.makeMove ⟨some 0, some 2, some "X"⟩),
   .disconnect "C"]

/-- Every phase rank is at most the rank of EndGame. -/
theorem phaseIdx_le_two (p : GamePhase) : phaseIdx p ≤ 2 := by
  cases p <;> simp [phaseIdx]

/-- The monotonicity disjuncts hold trivially for an unchanged entry. -/
theorem phase_mono_refl (g : NexusGame) :
    phaseIdx g.phase ≤ phaseIdx g.phase ∧
      (g.phase = GamePhase.in_game → g.phase ≠ GamePhase.in_game →
        g.phase = GamePhase.lobby) :=
  ⟨Nat.le_refl _, fun h1 h2 => absurd h1 h2⟩

/-- Effect of one operation on the session stored under a registry name:
its phase stays or advances along Lobby < InGame < EndGame — and it
enters InGame only from Lobby — unless `find_game` replaced the entry
wholesale with a freshly created, full, InGame matchmade session under a
reused `match_{len(games)}` name. -/
theorem stepOp_phase_monotone (s : ServerState) (op : Op) (name : String)
    (g g' : NexusGame) (h : Inv s)
    (hg : dget s.games name = some g)
    (hg' : dget (stepOp s op).games name = some g') :
    (phaseIdx g.phase ≤ phaseIdx g'.phase ∧
      (g'.phase = GamePhase.in_game → g.phase ≠ GamePhase.in_game →
        g.phase = GamePhase.lobby)) ∨
    (g'.is_matchmaking = true ∧ g'.phase = GamePhase.in_game ∧
      g'.players.length = g'.max_players ∧
      g'.game_state = some (TicTacToeState.init g'.players)) := by
  cases op with
  | connect cpid =>
      have hg2 : dget s.games name = some g' := hg'
      rw [hg] at hg2
      obtain rfl := Option.some.inj hg2
      exact Or.inl (phase_mono_refl g)
  | disconnect dpid =>
      have hg2 : dget s.games name = some g' := hg'
      rw [hg] at hg2
      obtain rfl := Option.some.inj hg2
      exact Or.inl (phase_mono_refl g)
  | command cpid cmd =>
      have hc : (handleCommand s cpid cmd).1 =
          (handleCommandCore s cpid cmd).1 := by
        unfold handleCommand
        split <;> rfl
      have hg2 : dget (handleCommandCore s cpid cmd).1.games name = some g' := by
        rw [← hc]
        exact hg'
      clear hg'
      unfold handleCommandCore at hg2
      split at hg2
      · have hg3 : dget s.games name = some g' := hg2
        rw [hg] at hg3
        obtain rfl := Option.some.inj hg3
        exact Or.inl (phase_mono_refl g)
      next player hpl =>
        split at hg2
        next gname pw pname maxp =>
          simp only [createGame] at hg2
          split at hg2
          next htaken =>
            have hg3 : dget s.games name = some g' := hg2
            rw [hg] at hg3
            obtain rfl := Option.some.inj hg3
            exact Or.inl (phase_mono_refl g)
          next htaken =>
            have hg3 : dget (dinsert s.games gname
                { name := gname, password := pw, max_players := maxp
                  phase := GamePhase.lobby
                  players := [{ id := player.id, name := pname,
                                game_id := some gname }]
                  game_state := none, is_matchmaking := false }) name =
                some g' := hg2
            rw [dget_dinsert] at hg3
            by_cases hn : gname = name
            · subst hn
              have htaken2 : ¬ (dget s.games gname).isSome = true := htaken
              rw [hg] at htaken2
              exact absurd rfl htaken2
            · rw [if_neg hn] at hg3
              rw [hg] at hg3
              obtain rfl := Option.some.inj hg3
              exact Or.inl (phase_mono_refl g)
        next gname pw pname =>
          simp only [joinGame] at hg2
          split at hg2
          · have hg3 : dget s.games name = some g' := hg2
            rw [hg] at hg3
            obtain rfl := Option.some.inj hg3
            exact Or.inl (phase_mono_refl g)
          next game hfind =>
            split at hg2
            · have hg3 : dget s.games name = some g' := hg2
              rw [hg] at hg3
              obtain rfl := Option.some.inj hg3
              exact Or.inl (phase_mono_refl g)
            split at hg2
            · have hg3 : dget s.games name = some g' := hg2
              rw [hg] at hg3
              obtain rfl := Option.some.inj hg3
              exact Or.inl (phase_mono_refl g)
            next hfull =>
              have hfull2 : ¬ game.max_players ≤ game.players.length := hfull
              have hfind2 : dget s.games gname = some game := hfind
              have hg3 : dget (dinsert s.games gname
                  (if (game.players ++ [({ id := player.id, name := pname, game_id := some gname } : NexusPlayer)]).length = game.max_players then
                    { game with players := (game.players ++ [({ id := player.id, name := pname, game_id := some gname } : NexusPlayer)]), game_state := (some (TicTacToeState.init (game.players ++ [({ id := player.id, name := pname, game_id := some gname } : NexusPlayer)]))), phase := GamePhase.in_game }
                  else
                    { game with players := (game.players ++ [({ id := player.id, name := pname, game_id := some gname } : NexusPlayer)]) })) name = some g' := hg2
              rw [dget_dinsert] at hg3
              by_cases hn : gname = name
              · subst hn
                rw [if_pos rfl] at hg3
                rw [hfind2] at hg
                obtain rfl := Option.some.inj hg
                split at hg3
                next hfc =>
                  obtain rfl := Option.some.inj hg3
                  have hfl : game.phase ≠ GamePhase.lobby →
                      game.players.length = game.max_players :=
                    h.full (gname, game) (dget_mem hfind2)
                  by_cases hph : game.phase = GamePhase.lobby
                  · refine Or.inl ⟨?_, fun _ _ => hph⟩
                    rw [hph]
                    simp [phaseIdx]
                  · exact absurd (hfl hph) (by omega)
                next hfc =>
                  obtain rfl := Option.some.inj hg3
                  exact Or.inl ⟨Nat.le_refl _, fun h1 h2 => absurd h1 h2⟩
              · rw [if_neg hn] at hg3
                rw [hg] at hg3
                obtain rfl := Option.some.inj hg3
                exact Or.inl (phase_mono_refl g)
        next pname =>
          simp only [findGame] at hg2
          split at hg2
          next hlen =>
            split at hg2
            next hnone =>
              have hg3 : dget s.games name = some g' := hg2
              rw [hg] at hg3
              obtain rfl := Option.some.inj hg3
              exact Or.inl (phase_mono_refl g)
            next ps hps =>
              have hg3 : dget (dinsert s.games
                  ("match_" ++ toString s.games.length)
                  { name := ("match_" ++ toString s.games.length)
                    password := none, max_players := 2
                    phase := GamePhase.in_game, players := ps
                    game_state := (some (TicTacToeState.init ps))
                    is_matchmaking := true }) name = some g' := hg2
              rw [dget_dinsert] at hg3
              by_cases hn : ("match_" ++ toString s.games.length) = name
              · rw [if_pos hn] at hg3
                obtain rfl := Option.some.inj hg3
                have hlen2 : ps.length = 2 := by
                  have hl := mapM_option_length _ _ _ hps
                  rw [List.length_take] at hl
                  omega
                exact Or.inr ⟨rfl, rfl, hlen2, rfl⟩
              · rw [if_neg hn] at hg3
                rw [hg] at hg3
                obtain rfl := Option.some.inj hg3
                exact Or.inl (phase_mono_refl g)
          next hlen =>
            have hg3 : dget s.games name = some g' := hg2
            rw [hg] at hg3
            obtain rfl := Option.some.inj hg3
            exact Or.inl (phase_mono_refl g)
        next m =>
          split at hg2
          · have hg3 : dget s.games name = some g' := hg2
            rw [hg] at hg3
            obtain rfl := Option.some.inj hg3
            exact Or.inl (phase_mono_refl g)
          next gid htr =>
            split at hg2
            · have hg3 : dget s.games name = some g' := hg2
              rw [hg] at hg3
              obtain rfl := Option.some.inj hg3
              exact Or.inl (phase_mono_refl g)
            next game heq2 =>
              split at hg2
              · have hg3 : dget s.games name = some g' := hg2
                rw [hg] at hg3
                obtain rfl := Option.some.inj hg3
                exact Or.inl (phase_mono_refl g)
              next hph =>
                simp only [handleGameCommand] at hg2
                split at hg2
                · have hg3 : dget s.games name = some g' := hg2
                  rw [hg] at hg3
                  obtain rfl := Option.some.inj hg3
                  exact Or.inl (phase_mono_refl g)
                next pidx hidx =>
                  split at hg2
                  · have hg3 : dget s.games name = some g' := hg2
                    rw [hg] at hg3
                    obtain rfl := Option.some.inj hg3
                    exact Or.inl (phase_mono_refl g)
                  next st hst =>
                    split at hg2
                    · have hg3 : dget s.games name = some g' := hg2
                      rw [hg] at hg3
                      obtain rfl := Option.some.inj hg3
                      exact Or.inl (phase_mono_refl g)
                    next hvalid =>
                      split at hg2
                      · have hg3 : dget s.games name = some g' := hg2
                        rw [hg] at hg3
                        obtain rfl := Option.some.inj hg3
                        exact Or.inl (phase_mono_refl g)
                      next st2 happ =>
                        have hkey : game.name = gid :=
                          h.keyname (gid, game) (dget_mem heq2)
                        split at hg2
                        next hover =>
                          have hg3 : dget (dinsert s.games game.name
                              { game with game_state := (some st2)
                                          phase := GamePhase.end_game }) name =
                              some g' := hg2
                          rw [dget_dinsert] at hg3
                          by_cases hn : game.name = name
                          · rw [if_pos hn] at hg3
                            obtain rfl := Option.some.inj hg3
                            rw [← hn, hkey, heq2] at hg
                            obtain rfl := Option.some.inj hg
                            exact Or.inl ⟨phaseIdx_le_two _,
                              fun h1 _ => absurd h1 (by simp)⟩
                          · rw [if_neg hn] at hg3
                            rw [hg] at hg3
                            obtain rfl := Option.some.inj hg3
                            exact Or.inl (phase_mono_refl g)
                        next hover =>
                          have hg3 : dget (dinsert s.games game.name
                              { game with game_state := (some st2) }) name =
                              some g' := hg2
                          rw [dget_dinsert] at hg3
                          by_cases hn : game.name = name
                          · rw [if_pos hn] at hg3
                            obtain rfl := Option.some.inj hg3
                            rw [← hn, hkey, heq2] at hg
                            obtain rfl := Option.some.inj hg
                            exact Or.inl ⟨Nat.le_refl _,
                              fun h1 h2 => absurd h1 h2⟩
                          · rw [if_neg hn] at hg3
                            rw [hg] at hg3
                            obtain rfl := Option.some.inj hg3
                            exact Or.inl (phase_mono_refl g)
        next =>
          split at hg2
          · have hg3 : dget s.games name = some g' := hg2
            rw [hg] at hg3
            obtain rfl := Option.some.inj hg3
            exact Or.inl (phase_mono_refl g)
          next gid htr =>
            split at hg2
            · have hg3 : dget s.games name = some g' := hg2
              rw [hg] at hg3
              obtain rfl := Option.some.inj hg3
              exact Or.inl (phase_mono_refl g)
            next game heq2 =>
              simp only [handleSurrender] at hg2
              split at hg2
              · have hg3 : dget s.games name = some g' := hg2
                rw [hg] at hg3
                obtain rfl := Option.some.inj hg3
                exact Or.inl (phase_mono_refl g)
              next w hw =>
                have hg3 : dget (ddel (dinsert s.games game.name
                    { game with phase := GamePhase.end_game }) game.name)
                    name = some g' := hg2
                by_cases hn : game.name = name
                · rw [← hn] at hg3
                  rw [dget_ddel_of_nodup (keys_nodup_dinsert h.gnodup)] at hg3
                  simp at hg3
                · rw [dget_ddel_ne hn, dget_dinsert, if_neg hn] at hg3
                  rw [hg] at hg3
                  obtain rfl := Option.some.inj hg3
                  exact Or.inl (phase_mono_refl g)

/-- C3: for every reachable session, the roster never exceeds
`max_players`, `game_state` is present exactly outside the Lobby phase,
and every session outside the Lobby phase is exactly at capacity; across
every well-formed operation, the session stored under a registry name
keeps or advances its phase along Lobby < InGame < EndGame and enters
InGame only from Lobby — the sole other case is matchmaking replacing
the entry wholesale with a freshly created, full, InGame matchmade
session under a reused `match_{len(games)}` name (the registry overwrite
of C9), which destroys the previous session rather than regressing it.
Together these give the claim's conjuncts: the capacity bound, the
game-state/phase equivalence, per-session phase monotonicity, and an
InGame transition that can happen only once per session (only out of
Lobby, which is never re-entered) and exactly when the roster reaches
`max_players`. -/
theorem reachable_session_invariants :
    (∀ s, Reachable s → ∀ kv ∈ s.games,
      kv.2.players.length ≤ kv.2.max_players ∧
      (kv.2.game_state.isSome ↔ kv.2.phase ≠ GamePhase.lobby) ∧
      (kv.2.phase ≠ GamePhase.lobby →
        kv.2.players.length = kv.2.max_players)) ∧
    (∀ s op name g g', Reachable s → OpOK op →
      dget s.games name = some g →
      dget (stepOp s op).games name = some g' →
      (phaseIdx g.phase ≤ phaseIdx g'.phase ∧
        (g'.phase = GamePhase.in_game → g.phase ≠ GamePhase.in_game →
          g.phase = GamePhase.lobby)) ∨
      (g'.is_matchmaking = true ∧ g'.phase = GamePhase.in_game ∧
        g'.players.length = g'.max_players ∧
        g'.game_state = some (TicTacToeState.init g'.players))) := by
  constructor
  · intro s h kv hkv
    exact ⟨((reachable_inv s h).sessions kv hkv).1,
      ((reachable_inv s h).sessions kv hkv).2,
      (reachable_inv s h).full kv hkv⟩
  · intro s op name g g' h _hok hg hg'
    exact stepOp_phase_monotone s op name g g' (reachable_inv s h) hg hg'

/-- The server state used by the C3 witness: one session `"g"` created by
alice with capacity 2, and a second connection ready to join. -/
def c3PreState : ServerState :=
  runOps ServerState.init
    [.connect "A", .command "A" (.createGame "g" none "alice" 2),
     .connect "B"]

/-- The session `"g"` as stored before the witness join step. -/
def c3G : NexusGame :=
  { name := "g", password := none, max_players := 2
    phase := .lobby
    players := [{ id := "A", name := "alice", game_id := some "g" }]
    game_state := none, is_matchmaking := false }

/-- The session `"g"` as stored after the witness join step fills it. -/
def c3G2 : NexusGame :=
  { name := "g", password := none, max_players := 2
    phase := .in_game
    players := [{ id := "A", name := "alice", game_id := some "g" },
                { id := "B", name := "bob", game_id := some "g" }]
    game_state := (some (TicTacToeState.init
      [{ id := "A", name := "alice", game_id := some "g" },
       { id := "B", name := "bob", game_id := some "g" }]))
    is_matchmaking := false }

/-- Witness for C3: the per-session invariants at a concrete reachable
state, and the monotonicity disjunction across the join that fills the
session — it enters InGame from Lobby, exactly at capacity. -/
theorem reachable_session_invariants_witness :
    Reachable c3PreState ∧
    OpOK (Op.command "B" (Cmd.joinGame "g" none "bob")) ∧
    dget c3PreState.games "g" = some c3G ∧
    dget (stepOp c3PreState
      (Op.command "B" (Cmd.joinGame "g" none "bob"))).games "g" = some c3G2 ∧
    (∀ kv ∈ c3PreState.games,
      kv.2.players.length ≤ kv.2.max_players ∧
      (kv.2.game_state.isSome ↔ kv.2.phase ≠ GamePhase.lobby) ∧
      (kv.2.phase ≠ GamePhase.lobby →
        kv.2.players.length = kv.2.max_players)) ∧
    ((phaseIdx c3G.phase ≤ phaseIdx c3G2.phase ∧
      (c3G2.phase = GamePhase.in_game → c3G.phase ≠ GamePhase.in_game →
        c3G.phase = GamePhase.lobby)) ∨
     (c3G2.is_matchmaking = true ∧ c3G2.phase = GamePhase.in_game ∧
      c3G2.players.length = c3G2.max_players ∧
      c3G2.game_state = some (TicTacToeState.init c3G2.players))) := by
  refine ⟨reachable_runOps _ _ Reachable.init (by decide), trivial,
    by decide, by decide, ?_, ?_⟩
  · exact reachable_session_invariants.1 c3PreState
      (reachable_runOps _ _ Reachable.init (by decide))
  · exact reachable_session_invariants.2 c3PreState
      (Op.command "B" (Cmd.joinGame "g" none "bob")) "g" c3G c3G2
      (reachable_runOps _ _ Reachable.init (by decide)) trivial
      (by decide) (by decide)

/-- C4: registered session names are distinct for every reachable state;
a `create_game` on a taken name changes nothing and sends only the
name-taken error to the requester; a `create_game` on a fresh name
registers a Lobby session holding only the requester and sends the
requester `GameCreated`. -/
theorem create_game_unique_names :
    (∀ s, Reachable s → (s.games.map Prod.fst).Nodup) ∧
    (∀ (s : ServerState) (np : NexusPlayer) (gname : String)
      (pw : Option String) (maxp : Nat), (dget s.games gname).isSome →
      createGame s np gname pw maxp =
        (s, [(np.id, errUpd "Game name already exists")], false)) ∧
    (∀ (s : ServerState) (np : NexusPlayer) (gname : String)
      (pw : Option String) (maxp : Nat), dget s.games gname = none →
      createGame s np gname pw maxp =
        ({ s with
            games := dinsert s.games gname
              { name := gname, password := pw, max_players := maxp
                phase := .lobby
                players := [{ np with game_id := some gname }]
                game_state := none, is_matchmaking := false }
            conns := dinsert s.conns np.id { np with game_id := some gname } },
         [(np.id, ⟨.game_created, []⟩)], false)) := by
  refine ⟨fun s h => (reachable_inv s h).gnodup, ?_, ?_⟩
  · intro s np gname pw maxp htaken
    unfold createGame
    rw [if_pos htaken]
  · intro s np gname pw maxp hfresh
    unfold createGame
    rw [if_neg (by rw [hfresh]; simp)]
    rfl

/-- Witness for C4: the name-uniqueness part at a state holding one
session, the taken branch at that state, the fresh branch at the empty
state. -/
theorem create_game_unique_names_witness :
    ((runOps ServerState.init
      [.connect "A", .command "A" (.createGame "g" none "alice" 2)]).games.map
        Prod.fst).Nodup ∧
    createGame (runOps ServerState.init
        [.connect "A", .command "A" (.createGame "g" none "alice" 2)])
        { id := "B", name := "bob", game_id := none } "g" none 2 =
      (runOps ServerState.init
        [.connect "A", .command "A" (.createGame "g" none "alice" 2)],
       [("B", errUpd "Game name already exists")], false) ∧
    createGame ServerState.init { id := "B", name := "bob", game_id := none }
        "h" none 2 =
      ({ ServerState.init with
          games := dinsert ServerState.init.games "h"
            { name := "h", password := none, max_players := 2
              phase := .lobby
              players := [{ id := "B", name := "bob", game_id := some "h" }]
              game_state := none, is_matchmaking := false }
          conns := dinsert ServerState.init.conns "B"
            { id := "B", name := "bob", game_id := some "h" } },
       [("B", ⟨.game_created, []⟩)], false) :=
  ⟨create_game_unique_names.1 _ (reachable_runOps _ _ Reachable.init (by decide)),
   create_game_unique_names.2.1 _ _ _ _ _ (by decide),
   create_game_unique_names.2.2 _ _ _ _ _ (by decide)⟩

/-- Four players entering matchmaking in order A, B, C, D. -/
def opsMatchmaking : List Op :=
  [.connect "A", .command "A" (.findGame "a"),
   .connect "B", .command "B" (.findGame "b"),
   .connect "C", .command "C" (.findGame "c"),
   .connect "D", .command "D" (.findGame "d")]

/-- C5: the matchmaking queue of every reachable state holds at most one
entry (two queued ids are paired and popped within the same `find_game`
call), and for arrival order [A,B,C,D] the first matchmade session pairs
A and B and the second pairs C and D, in order, each a two-player
matchmade session with nobody paired twice and an empty final queue. -/
theorem matchmaking_fifo_pairs :
    (∀ s, Reachable s → s.matchmaking_queue.length ≤ 1) ∧
    (dget (runOps ServerState.init opsMatchmaking).games "match_0").map
      (fun g => (g.players.map (fun p => p.id), g.is_matchmaking, g.max_players)) =
      some (["A", "B"], true, 2) ∧
    (dget (runOps ServerState.init opsMatchmaking).games "match_1").map
      (fun g => (g.players.map (fun p => p.id), g.is_matchmaking, g.max_players)) =
      some (["C", "D"], true, 2) ∧
    (runOps ServerState.init opsMatchmaking).games.length = 2 ∧
    (runOps ServerState.init opsMatchmaking).matchmaking_queue = [] := by
  refine ⟨fun s h => (reachable_inv s h).qlen, ?_, ?_, ?_, ?_⟩
  · decide
  · decide
  · decide
  · decide

/-- Witness for C5's queue-length bound at the state reached after one
`find_game`. -/
theorem matchmaking_fifo_pairs_witness :
    Reachable (runOps ServerState.init
      [.connect "A", .command "A" (.findGame "a")]) ∧
    (runOps ServerState.init
      [.connect "A", .command "A" (.findGame "a")]).matchmaking_queue.length ≤ 1 :=
  ⟨reachable_runOps _ _ Reachable.init (by decide),
   matchmaking_fifo_pairs.1 _ (reachable_runOps _ _ Reachable.init (by decide))⟩

/-- C9: matchmaking pairing always registers its session under the name
`match_{len(games)}` with no collision check — `games[game_name] = game`
replaces any existing entry of that name — so a session explicitly
created under that name is silently destroyed, as the concrete trace
shows (the registry still holds one entry, now the matchmade session). -/
theorem matchmade_name_overwrites :
    (∀ (s : ServerState) (player : NexusPlayer) (q0 : String)
      (rec0 rec1 : NexusPlayer),
      s.matchmaking_queue = [q0] →
      dget s.conns q0 = some rec0 →
      dget s.conns player.id = some rec1 →
      ∃ g, dget (findGame s player).1.games
          ("match_" ++ toString s.games.length) = some g ∧
        g.is_matchmaking = true ∧ g.players = [rec0, rec1] ∧
        g.phase = .in_game ∧ g.max_players = 2) ∧
    ((runOps ServerState.init
      [.connect "E", .command "E" (.createGame "match_1" none "eve" 2),
       .connect "A", .command "A" (.findGame "a"),
       .connect "B", .command "B" (.findGame "b")]).games.length = 1 ∧
    (dget (runOps ServerState.init
      [.connect "E", .command "E" (.createGame "match_1" none "eve" 2),
       .connect "A", .command "A" (.findGame "a"),
       .connect "B", .command "B" (.findGame "b")]).games "match_1").map
        (fun g => (g.is_matchmaking, g.players.map (fun p => p.id))) =
      some (true, ["A", "B"])) := by
  constructor
  · intro s player q0 rec0 rec1 hq h0 h1
    unfold findGame
    rw [hq]
    rw [if_pos (by simp)]
    have hm : ((([q0] ++ [player.id]).take 2).mapM
        (fun pid => dget s.conns pid)) = some [rec0, rec1] := by
      simp [List.mapM, List.mapM.loop, h0, h1]
    rw [hm]
    exact ⟨{ name := "match_" ++ toString s.games.length, password := none
             max_players := 2, phase := .in_game, players := [rec0, rec1]
             game_state := some (TicTacToeState.init [rec0, rec1])
             is_matchmaking := true },
           by rw [dget_dinsert]; simp, rfl, rfl, rfl, rfl⟩
  · exact ⟨by decide, by decide⟩

/-- Witness for C9's naming rule, instantiated on the concrete overwrite
state. -/
theorem matchmade_name_overwrites_witness :
    (runOps ServerState.init
      [.connect "E", .command "E" (.createGame "match_1" none "eve" 2),
       .connect "A", .command "A" (.findGame "a"),
       .connect "B", .command "B" (.findGame "b"),
       .connect "F", .command "F" (.findGame "f"),
       .connect "G"]).matchmaking_queue = ["F"] ∧
    ∃ g, dget (findGame (runOps ServerState.init
      [.connect "E", .command "E" (.createGame "match_1" none "eve" 2),
       .connect "A", .command "A" (.findGame "a"),
       .connect "B", .command "B" (.findGame "b"),
       .connect "F", .command "F" (.findGame "f"),
       .connect "G"])
      { id := "G", name := "", game_id := none }).1.games
        ("match_" ++ toString (runOps ServerState.init
      [.connect "E", .command "E" (.createGame "match_1" none "eve" 2),
       .connect "A", .command "A" (.findGame "a"),
       .connect "B", .command "B" (.findGame "b"),
       .connect "F", .command "F" (.findGame "f"),
       .connect "G"]).games.length) = some g ∧
      g.is_matchmaking = true ∧
      g.players = [{ id := "F", name := "f", game_id := none },
        { id := "G", name := "", game_id := none }] ∧
      g.phase = .in_game ∧ g.max_players = 2 := by
  refine ⟨by decide, ?_⟩
  exact matchmade_name_overwrites.1 _ _ "F" _ _ (by decide) (by decide) (by decide)

/-- When a game has no state, the `join_game` send loop raises on its
first iteration, before sending anything. -/
theorem joinSends_state_none (g : NexusGame) (hg : g.game_state = none)
    (p : NexusPlayer) (rest : List NexusPlayer) :
    joinSends g (p :: rest) = ([], true) := by
  have hnone : get_player_game_state g p = none := by
    unfold get_player_game_state
    split
    · rfl
    · rw [hg]
  unfold joinSends
  rw [hnone]

/-- C10: a join of a Lobby session (null `game_state`) with
`max_players ≥ 3` that stays below capacity appends the joiner to the
session and re-registers their connection record with `session_id` set,
but the `GameStarted` loop then calls `get_player_perspective` on the
null state and raises; the connection handler surfaces the exception to
the joiner as a generic `Error` update, and the append is not rolled
back. -/
theorem join_below_capacity_mutates_then_errors (s : ServerState)
    (pid : String) (player : NexusPlayer) (gname pname : String)
    (pw : Option String) (game : NexusGame)
    (hconn : dget s.conns pid = some player) (hid : player.id = pid)
    (hgame : dget s.games gname = some game)
    (hstate : game.game_state = none)
    (hmax : 3 ≤ game.max_players)
    (hbelow : game.players.length + 1 < game.max_players)
    (hpw : pwMismatch game.password pw = false) :
    dget (handleCommand s pid (.joinGame gname pw pname)).1.games gname =
      some { game with players := game.players ++
        [{ id := player.id, name := pname, game_id := some gname }] } ∧
    dget (handleCommand s pid (.joinGame gname pw pname)).1.conns pid =
      some { id := player.id, name := pname, game_id := some gname } ∧
    (handleCommand s pid (.joinGame gname pw pname)).2 =
      [(pid, errUpd "Error: internal")] := by
  have hcore : handleCommandCore s pid (.joinGame gname pw pname) =
      ({ s with
          games := dinsert s.games gname ({ game with players := game.players ++
            [{ id := player.id, name := pname, game_id := some gname }] })
          conns := dinsert
            (dinsert s.conns player.id
              { id := player.id, name := pname, game_id := player.game_id })
            player.id { id := player.id, name := pname, game_id := some gname } },
       [], true) := by
    unfold handleCommandCore
    rw [hconn]
    unfold joinGame
    simp only
    rw [hgame]
    simp only
    rw [if_neg (by rw [hpw]; simp)]
    rw [if_neg (by omega)]
    rw [if_neg (by
      simp only [List.length_append, List.length_singleton]
      omega)]
    rcases hlist : game.players ++
        [{ id := player.id, name := pname, game_id := some gname }] with _ | ⟨q, qs⟩
    · exact absurd hlist (by simp)
    · have hsend : joinSends
          ({ game with players := game.players ++
            [{ id := player.id, name := pname, game_id := some gname }] })
          (game.players ++
            [{ id := player.id, name := pname, game_id := some gname }]) =
          ([], true) := by
        rw [hlist]
        exact joinSends_state_none _ (by exact hstate) q qs
      rw [hsend]
  refine ⟨?_, ?_, ?_⟩
  · have h1 : (handleCommand s pid (.joinGame gname pw pname)).1 =
        (handleCommandCore s pid (.joinGame gname pw pname)).1 := by
      unfold handleCommand
      split <;> rfl
    rw [h1, hcore]
    rw [dget_dinsert]
    simp
  · have h1 : (handleCommand s pid (.joinGame gname pw pname)).1 =
        (handleCommandCore s pid (.joinGame gname pw pname)).1 := by
      unfold handleCommand
      split <;> rfl
    rw [h1, hcore]
    simp only
    rw [dget_dinsert]
    rw [if_pos hid]
  · unfold handleCommand
    rw [hcore]
    rfl

/-- Witness for C10: joining a half-empty three-seat lobby. -/
theorem join_below_capacity_mutates_then_errors_witness :
    dget (handleCommand (runOps ServerState.init
      [.connect "A", .command "A" (.createGame "g" none "alice" 3),
       .connect "B"]) "B" (.joinGame "g" none "bob")).1.games "g" =
      some { name := "g", password := none, max_players := 3
             phase := .lobby
             players := [{ id := "A", name := "alice", game_id := some "g" },
               { id := "B", name := "bob", game_id := some "g" }]
             game_state := none, is_matchmaking := false } ∧
    dget (handleCommand (runOps ServerState.init
      [.connect "A", .command "A" (.createGame "g" none "alice" 3),
       .connect "B"]) "B" (.joinGame "g" none "bob")).1.conns "B" =
      some { id := "B", name := "bob", game_id := some "g" } ∧
    (handleCommand (runOps ServerState.init
      [.connect "A", .command "A" (.createGame "g" none "alice" 3),
       .connect "B"]) "B" (.joinGame "g" none "bob")).2 =
      [("B", errUpd "Error: internal")] := by
  have h := join_below_capacity_mutates_then_errors
    (runOps ServerState.init
      [.connect "A", .command "A" (.createGame "g" none "alice" 3),
       .connect "B"]) "B" { id := "B", name := "", game_id := none } "g" "bob"
    none { name := "g", password := none, max_players := 3, phase := .lobby
           players := [{ id := "A", name := "alice", game_id := some "g" }]
           game_state := none, is_matchmaking := false }
    (by decide) rfl (by decide) rfl (by decide) (by decide) rfl
  exact h

/-- Once a connection record is the cleared version of a member, the
`end_game` fold keeps it cleared. -/
theorem endGame_fold_keeps (ps : List NexusPlayer)
    (cs : List (String × NexusPlayer)) (p : NexusPlayer)
    (hc : dget cs p.id = some { p with game_id := none }) :
    dget (ps.foldl
      (fun cs q =>
        if dget cs q.id = some q then dinsert cs q.id { q with game_id := none }
        else cs) cs) p.id = some { p with game_id := none } := by
  induction ps generalizing cs with
  | nil => exact hc
  | cons q rest ih =>
      simp only [List.foldl_cons]
      by_cases hcond : dget cs q.id = some q
      · rw [if_pos hcond]
        apply ih
        rw [dget_dinsert]
        by_cases hqp : q.id = p.id
        · rw [if_pos hqp]
          rw [hqp] at hcond
          rw [hc] at hcond
          cases hcond
          rfl
        · rw [if_neg hqp]
          exact hc
      · rw [if_neg hcond]
        exact ih cs hc

/-- A member whose current connection record is the very record in the
player list has its `game_id` cleared by the `end_game` fold. -/
theorem endGame_fold_clears (ps : List NexusPlayer)
    (cs : List (String × NexusPlayer)) (p : NexusPlayer) (hp : p ∈ ps)
    (hc : dget cs p.id = some p) :
    dget (ps.foldl
      (fun cs q =>
        if dget cs q.id = some q then dinsert cs q.id { q with game_id := none }
        else cs) cs) p.id = some { p with game_id := none } := by
  induction ps generalizing cs with
  | nil => simp at hp
  | cons q rest ih =>
      simp only [List.foldl_cons]
      by_cases hqp : q = p
      · subst hqp
        rw [if_pos hc]
        apply endGame_fold_keeps
        rw [dget_dinsert]
        rw [if_pos rfl]
      · have hp2 : p ∈ rest := by
          rcases List.mem_cons.mp hp with h1 | h1
          · exact absurd h1.symm hqp
          · exact h1
        by_cases hcond : dget cs q.id = some q
        · rw [if_pos hcond]
          refine ih _ hp2 ?_
          rw [dget_dinsert]
          by_cases hqp2 : q.id = p.id
          · rw [hqp2] at hcond
            rw [hc] at hcond
            cases hcond
            exact absurd rfl hqp
          · rw [if_neg hqp2]
            exact hc
        · rw [if_neg hcond]
          exact ih cs hp2 hc

/-- C6 (amended): `handle_disconnect` always erases the player's id from
the matchmaking queue; given a session membership it removes the player's
record from the session; with fewer than two remaining the session leaves
the registry and every remaining member whose connection record is the
in-session record has `session_id` cleared; with two or more remaining a
single `GameStateUpdate` is sent — to `game.players[0]` only, carrying
player 0's own projection — not to every remaining member. -/
theorem disconnect_removes_and_notifies_first :
    (∀ (s : ServerState) (player : NexusPlayer) (gid : String)
      (game : NexusGame) (st : TicTacToeState) (p0 : NexusPlayer)
      (rest : List NexusPlayer),
      truthyId player.game_id = some gid →
      dget s.games gid = some game →
      player ∈ game.players →
      game.players.erase player = p0 :: rest →
      2 ≤ (p0 :: rest).length →
      game.game_state = some st →
      handleDisconnect s player =
        ({ games := dinsert s.games gid
             ({ game with players := game.players.erase player })
           conns := s.conns
           matchmaking_queue := s.matchmaking_queue.erase player.id },
         [(p0.id, ⟨.game_state_update, st.get_player_perspective 0⟩)], false)) ∧
    (∀ (s : ServerState) (player : NexusPlayer) (gid : String)
      (game : NexusGame),
      truthyId player.game_id = some gid →
      dget s.games gid = some game →
      player ∈ game.players →
      (game.players.erase player).length < 2 →
      gid = game.name →
      (s.games.map Prod.fst).Nodup →
      dget (handleDisconnect s player).1.games gid = none ∧
      (handleDisconnect s player).1.matchmaking_queue =
        s.matchmaking_queue.erase player.id ∧
      (∀ q ∈ game.players.erase player, dget s.conns q.id = some q →
        dget (handleDisconnect s player).1.conns q.id =
          some { q with game_id := none })) := by
  constructor
  · intro s player gid game st p0 rest ht hgame hmem herase hlen hstate
    unfold handleDisconnect
    rw [ht]
    simp only
    rw [hgame]
    simp only
    rw [if_pos hmem]
    rw [herase]
    rw [if_neg (by omega)]
    have hgps : get_player_game_state
        ({ game with players := p0 :: rest }) p0 =
        some (st.get_player_perspective 0) := by
      unfold get_player_game_state
      have hidx : listIndex p0 (({ game with players := p0 :: rest }) :
          NexusGame).players = some 0 := by
        simp [listIndex]
      rw [hidx]
      simp only
      rw [show (({ game with players := p0 :: rest }) : NexusGame).game_state =
        game.game_state from rfl, hstate]
    simp only [List.head?]
    rw [hgps]
    rfl
  · intro s player gid game ht hgame hmem hlt hname hnodup
    unfold handleDisconnect
    rw [ht]
    simp only
    rw [hgame]
    simp only
    rw [if_pos hmem]
    rw [if_pos hlt]
    refine ⟨?_, rfl, ?_⟩
    · show dget (ddel (dinsert s.games gid
        ({ game with players := game.players.erase player }))
        (({ game with players := game.players.erase player }) : NexusGame).name)
        gid = none
      rw [show (({ game with players := game.players.erase player }) :
        NexusGame).name = game.name from rfl]
      rw [← hname]
      exact dget_ddel_of_nodup (keys_nodup_dinsert hnodup)
    · intro q hq hcq
      exact endGame_fold_clears _ _ q hq hcq

/-- Witness for the amended C6: the finished three-player session loses
player C; exactly one update goes out, to the first remaining member A. -/
theorem disconnect_removes_and_notifies_first_witness :
    ∃ (game : NexusGame) (st : TicTacToeState) (p0 : NexusPlayer)
      (rest : List NexusPlayer),
      dget (runOps ServerState.init opsFinishedGame.dropLast).games "g" =
        some game ∧
      game.game_state = some st ∧
      game.players.erase { id := "C", name := "caro", game_id := some "g" } =
        p0 :: rest ∧
      p0.id = "A" ∧
      handleDisconnect (runOps ServerState.init opsFinishedGame.dropLast)
        { id := "C", name := "caro", game_id := some "g" } =
        ({ games := dinsert
             (runOps ServerState.init opsFinishedGame.dropLast).games "g"
             ({ game with players :=
                 (game.players.erase
                   { id := "C", name := "caro", game_id := some "g" }) })
           conns := (runOps ServerState.init opsFinishedGame.dropLast).conns
           matchmaking_queue := (runOps ServerState.init
             opsFinishedGame.dropLast).matchmaking_queue.erase "C" },
         [(p0.id, ⟨.game_state_update, st.get_player_perspective 0⟩)],
         false) := by
  refine ⟨_, _, _, _, rfl, rfl, rfl, rfl, ?_⟩
  exact disconnect_removes_and_notifies_first.1 _ _ "g" _ _ _ _
    rfl rfl (by decide) rfl (by decide) rfl

/-- The full result of `handle_game_command` on an accepted, successfully
applied move: the raw command data is broadcast to every member, and when
the game ended the phase is marked and a `GameOver` broadcast follows —
with no session teardown. -/
theorem handleGameCommand_success (s : ServerState) (game : NexusGame)
    (player : NexusPlayer) (m : MoveData) (i : Nat) (st st2 : TicTacToeState)
    (hidx : listIndex player game.players = some i)
    (hst : game.game_state = some st)
    (hv : (st.is_valid m i).1 = true)
    (happ : st.applyMove m = some st2) :
    handleGameCommand s game player m =
      if st2.game_over then
        ({ s with games :=
             (dinsert s.games game.name
               { game with game_state := some st2, phase := .end_game }) },
         (game.players.map fun p =>
           (p.id, (⟨.game_state_update, m.toDict⟩ : Update))) ++
         (game.players.map fun p => (p.id, gameOverUpd st2)), false)
      else
        ({ s with games :=
             (dinsert s.games game.name
               { game with game_state := some st2 }) },
         game.players.map fun p =>
           (p.id, (⟨.game_state_update, m.toDict⟩ : Update)), false) := by
  unfold handleGameCommand
  rw [hidx]
  simp only
  rw [hst]
  simp only
  rw [if_neg (by rw [hv]; simp)]
  rw [happ]
  simp only
  split
  · rfl
  · rfl

/-- C2 (amended): on surrender the `GameOver` update (winner = the first
remaining player's name, reason "surrender") is sent to the surrendering
player only — not to every member — and the session is torn down (removed
from the registry, members' matching connection records cleared).  When
`apply` sets `game_over` after an accepted move, the phase is set to
EndGame and `GameOver{winner, reason}` is broadcast to every member, but
the session is NOT torn down: it stays in the registry and no member's
`session_id` is cleared. -/
theorem terminal_session_behavior :
    (∀ (s : ServerState) (game : NexusGame) (player : NexusPlayer)
      (gid : String),
      truthyId player.game_id = some gid →
      gid = game.name →
      (s.games.map Prod.fst).Nodup →
      (handleSurrender s game player).2.1 =
        [(player.id, ⟨.game_over,
          [("winner",
            match ((game.players.filter (fun p => p ≠ player)).map
              (fun p => p.name)).head? with
            | some w => .vStr w
            | none => .vNone),
           ("reason", .vStr "surrender")]⟩)] ∧
      dget (handleSurrender s game player).1.games gid = none ∧
      (∀ q ∈ game.players, dget s.conns q.id = some q →
        dget (handleSurrender s game player).1.conns q.id =
          some { q with game_id := none })) ∧
    (∀ (s : ServerState) (game : NexusGame) (player : NexusPlayer)
      (m : MoveData) (i : Nat) (st st2 : TicTacToeState),
      listIndex player game.players = some i →
      game.game_state = some st →
      (st.is_valid m i).1 = true →
      st.applyMove m = some st2 →
      st2.game_over = true →
      dget (handleGameCommand s game player m).1.games game.name =
        some ({ game with game_state := some st2, phase := .end_game }) ∧
      (handleGameCommand s game player m).2.1 =
        (game.players.map fun p =>
          (p.id, (⟨.game_state_update, m.toDict⟩ : Update))) ++
        (game.players.map fun p => (p.id, gameOverUpd st2))) := by
  constructor
  · intro s game player gid ht hname hnodup
    unfold handleSurrender
    rw [ht]
    simp only
    refine ⟨rfl, ?_, ?_⟩
    · show dget (ddel (dinsert s.games game.name
        ({ game with phase := .end_game }))
        (({ game with phase := .end_game }) : NexusGame).name) gid = none
      rw [show (({ game with phase := .end_game }) : NexusGame).name =
        game.name from rfl]
      rw [hname]
      exact dget_ddel_of_nodup (keys_nodup_dinsert hnodup)
    · intro q hq hcq
      exact endGame_fold_clears _ _ q hq hcq
  · intro s game player m i st st2 hidx hst hv happ hover
    rw [handleGameCommand_success s game player m i st st2 hidx hst hv happ]
    rw [if_pos hover]
    refine ⟨?_, rfl⟩
    rw [dget_dinsert]
    simp

/-- The two-player session reached by creating "s2" and joining it. -/
def sAB : ServerState :=
  runOps ServerState.init
    [.connect "A", .command "A" (.createGame "s2" none "alice" 2),
     .connect "B", .command "B" (.joinGame "s2" none "bob")]

/-- The session record registered under "s2" in `sAB`. -/
def s2Session : NexusGame :=
  { name := "s2", password := none, max_players := 2, phase := .in_game
    players := [{ id := "A", name := "alice", game_id := some "s2" },
      { id := "B", name := "bob", game_id := some "s2" }]
    game_state := some
      { players := [{ id := "A", name := "alice", game_id := some "s2" },
          { id := "B", name := "bob", game_id := some "s2" }]
        game_over := false, winner := none, phase := .in_game
        board := [["", "", ""], ["", "", ""], ["", "", ""]]
        current_player := some "X", my_symbol := none, is_your_turn := false }
    is_matchmaking := false }

/-- A tic-tac-toe position one move away from an X win. -/
def midState : TicTacToeState :=
  { players := [{ id := "A", name := "alice", game_id := some "s2" },
      { id := "B", name := "bob", game_id := some "s2" }]
    game_over := false, winner := none, phase := .in_game
    board := [["X", "X", ""], ["O", "O", ""], ["", "", ""]]
    current_player := some "X", my_symbol := none, is_your_turn := false }

/-- The "s2" session holding `midState`. -/
def midSession : NexusGame :=
  { name := "s2", password := none, max_players := 2, phase := .in_game
    players := [{ id := "A", name := "alice", game_id := some "s2" },
      { id := "B", name := "bob", game_id := some "s2" }]
    game_state := some midState, is_matchmaking := false }

/-- Witness for the amended C2: player A surrenders the two-player "s2"
session (single send to A, session deregistered, B's record cleared), and
the winning move in `midSession` leaves the session registered with phase
EndGame. -/
theorem terminal_session_behavior_witness :
    ((handleSurrender sAB s2Session
        { id := "A", name := "alice", game_id := some "s2" }).2.1 =
      [("A", ⟨.game_over,
        [("winner", .vStr "bob"), ("reason", .vStr "surrender")]⟩)] ∧
     dget (handleSurrender sAB s2Session
        { id := "A", name := "alice", game_id := some "s2" }).1.games "s2" =
       none ∧
     dget (handleSurrender sAB s2Session
        { id := "A", name := "alice", game_id := some "s2" }).1.conns "B" =
       some { id := "B", name := "bob", game_id := none }) ∧
    (∃ st2 : TicTacToeState,
      midState.applyMove ⟨some 0, some 2, some "X"⟩ = some st2 ∧
      st2.game_over = true ∧
      dget (handleGameCommand sAB midSession
        { id := "A", name := "alice", game_id := some "s2" }
        ⟨some 0, some 2, some "X"⟩).1.games "s2" =
        some ({ midSession with game_state := some st2, phase := .end_game })) := by
  have h := terminal_session_behavior.1 sAB s2Session
    { id := "A", name := "alice", game_id := some "s2" } "s2"
    (by decide) rfl (by decide)
  refine ⟨⟨?_, h.2.1, ?_⟩, ?_⟩
  · rw [h.1]
    simp [s2Session]
  · exact h.2.2 { id := "B", name := "bob", game_id := some "s2" }
      (by decide) (by decide)
  · refine ⟨_, rfl, by decide, ?_⟩
    exact (terminal_session_behavior.2 sAB midSession
      { id := "A", name := "alice", game_id := some "s2" }
      ⟨some 0, some 2, some "X"⟩ 0 midState _
      (by decide) rfl (by decide) rfl (by decide)).1

/-- Counterexample to C2 as stated: after the winning move of
`opsFinishedGame` the session is still registered (not torn down) and the
members' `session_id` values are not cleared; and on surrender the
`GameOver` update is sent to the surrendering player only, although the
session has two members. -/
theorem terminal_session_counterexample :
    (dget (runOps ServerState.init (opsFinishedGame.take 11)).games
      "g").isSome = true ∧
    (dget (runOps ServerState.init (opsFinishedGame.take 11)).conns "A").map
      (fun p => p.game_id) = some (some "g") ∧
    (handleCommand (runOps ServerState.init
      [.connect "A", .command "A" (.createGame "s2" none "alice" 2),
       .connect "B", .command "B" (.joinGame "s2" none "bob")]) "A"
      (.surrender)).2.map Prod.fst = ["A"] ∧
    (dget (runOps ServerState.init
      [.connect "A", .command "A" (.createGame "s2" none "alice" 2),
       .connect "B", .command "B" (.joinGame "s2" none "bob")]).games
      "s2").map (fun g => g.players.length) = some 2 := by
  exact ⟨by decide, by decide, by decide, by decide⟩

/-- C1 (amended): `send_game_update` writes `update.data` through
unchanged for every update type — the per-player projection code is
commented out — sending once to an explicit recipient and once per member
of `session.players`, in player-list order, when no recipient is given;
consequently the step-5 broadcast after an accepted `make_move` delivers
the raw command data, identical for every member, not each recipient's
projection (projections for `GameStarted` are computed by the callers
`join_game`/`find_game` before `send_game_update` is invoked). -/
theorem send_game_update_passthrough :
    (∀ (game : NexusGame) (u : Update) (p : NexusPlayer),
      sendGameUpdate game u (some p) = [(p.id, u)]) ∧
    (∀ (game : NexusGame) (u : Update),
      sendGameUpdate game u none = game.players.map fun p => (p.id, u)) ∧
    (∀ (s : ServerState) (game : NexusGame) (player : NexusPlayer)
      (m : MoveData) (i : Nat) (st st2 : TicTacToeState),
      listIndex player game.players = some i →
      game.game_state = some st →
      (st.is_valid m i).1 = true →
      st.applyMove m = some st2 →
      st2.game_over = false →
      (handleGameCommand s game player m).2.1 =
        game.players.map fun p =>
          (p.id, (⟨.game_state_update, m.toDict⟩ : Update))) := by
  refine ⟨fun _ _ _ => rfl, fun _ _ => rfl, ?_⟩
  intro s game player m i st st2 hidx hst hv happ hover
  rw [handleGameCommand_success s game player m i st st2 hidx hst hv happ]
  rw [if_neg (by rw [hover]; simp)]

/-- Witness for the amended C1: the first move in the two-player "s2"
session is broadcast raw to both members in player-list order. -/
theorem send_game_update_passthrough_witness :
    sendGameUpdate s2Session ⟨.error, [("message", .vStr "m")]⟩
      (some { id := "B", name := "bob", game_id := some "s2" }) =
      [("B", ⟨.error, [("message", .vStr "m")]⟩)] ∧
    ∃ st2 : TicTacToeState,
      (Option.getD s2Session.game_state (TicTacToeState.init [])).applyMove
        ⟨some 0, some 0, some "X"⟩ = some st2 ∧
      (handleGameCommand sAB s2Session
        { id := "A", name := "alice", game_id := some "s2" }
        ⟨some 0, some 0, some "X"⟩).2.1 =
        s2Session.players.map fun p =>
          (p.id, (⟨.game_state_update,
            (⟨some 0, some 0, some "X"⟩ : MoveData).toDict⟩ : Update)) := by
  refine ⟨send_game_update_passthrough.1 s2Session
    ⟨.error, [("message", .vStr "m")]⟩
    { id := "B", name := "bob", game_id := some "s2" }, ?_⟩
  refine ⟨_, rfl, ?_⟩
  exact send_game_update_passthrough.2.2 sAB s2Session
    { id := "A", name := "alice", game_id := some "s2" }
    ⟨some 0, some 0, some "X"⟩ 0
    (Option.getD s2Session.game_state (TicTacToeState.init [])) _
    (by decide) rfl (by decide) rfl (by decide)

/-- Counterexample to C1 as stated: the step-5 broadcast of the first
move in the two-player session delivers the same three-entry raw command
dict to both members, while the recipient's own projection has seven
entries — the broadcaster does not compute per-player projections. -/
theorem broadcast_is_raw_counterexample :
    (handleCommand sAB "A" (.makeMove ⟨some 0, some 0, some "X"⟩)).2.map
      Prod.fst = ["A", "B"] ∧
    (handleCommand sAB "A" (.makeMove ⟨some 0, some 0, some "X"⟩)).2.map
      (fun x => x.2.update_type) = [.game_state_update, .game_state_update] ∧
    (handleCommand sAB "A" (.makeMove ⟨some 0, some 0, some "X"⟩)).2.map
      (fun x => x.2.data.length) = [3, 3] ∧
    (dget (handleCommand sAB "A"
      (.makeMove ⟨some 0, some 0, some "X"⟩)).1.games "s2").map
      (fun g => g.game_state.map
        (fun st => (st.get_player_perspective 1).length)) =
      some (some 7) := by
  exact ⟨by decide, by decide, by decide, by decide⟩

/-- Counterexample to C6 as stated: after player C disconnects from the
finished three-player session, two members remain but exactly one update
is sent, to player A only — not to every remaining member. -/
theorem disconnect_only_notifies_player_zero_counterexample :
    (handleDisconnect (runOps ServerState.init opsFinishedGame.dropLast)
      { id := "C", name := "caro", game_id := some "g" }).2.1.map Prod.fst =
      ["A"] ∧
    (dget (handleDisconnect (runOps ServerState.init
      opsFinishedGame.dropLast)
      { id := "C", name := "caro", game_id := some "g" }).1.games "g").map
      (fun g => g.players.map (fun p => p.id)) = some ["A", "B"] := by
  exact ⟨by decide, by decide⟩

end Nexus
